import Mathlib

/-!
# DisCoTec third-level combination scheme: a verification development

Shallow embedding of
`distributedcombigrid/src/sgpp/distributedcombigrid/combischeme/CombiThirdLevelScheme.cpp`,
of `examples/distributed_third_level/TaskConstParaboloid.hpp`, of the manager functions of
`distributedcombigrid/src/sgpp/distributedcombigrid/manager/ProcessManager.hpp`, of the
manager side of `distributedcombigrid/tests/test_thirdLevel.cpp`, of the stubs of
`distributedcombigrid/examples/selalib_distributed/src/SelalibTask.hpp` and of the
configuration constants of `src/utils/Config.hpp`.

Conventions of the embedding

* `std::vector<T>` is `List T`; a `LevelVector` is a `std::vector<long>`, its entries are
  only compared and copied, so they are `Int`.
* `real` (a C++ `double`) is embedded as a rational number where the code only copies
  values (the coefficients of the scheme) and where a statement is about exact arithmetic
  (the closed form of the paraboloid).  What the paraboloid returns on doubles is stated
  over `Double`, an embedding of IEEE 754 binary64 with rounding to nearest, ties to even.
* The functions are embedded as built with assertions enabled: a failing `assert` is
  `Failure.assertion`.
* A read outside the bounds of a vector (`v[i]` with `i >= v.size()`) is undefined
  behaviour in C++; the embedding reports it as `Failure.outOfRange`.
* An exception that no handler catches ends the run: `std::length_error` is
  `Failure.lengthError`.
* Reference parameters that a function overwrites are returned as the result.
* A function that talks to other processes is embedded with the list of the calls it makes
  (`Traced`); a polling loop is observed for a bounded number of sweeps.
-/

set_option linter.unusedVariables false

namespace combigrid

/-- The ways in which a call does not return normally. -/
inductive Failure where
  /-- An `assert(...)` did not hold. -/
  | assertion
  /-- A vector was read outside its bounds. -/
  | outOfRange
  /-- A `std::length_error` was thrown: a `std::vector` was asked for more elements than
  its `max_size()`. -/
  | lengthError
  deriving DecidableEq

/-- A level vector: `std::vector<long>`. -/
abbrev LevelVector := List Int

/-- The coefficient type `combigrid::real`, over exact arithmetic. -/
abbrev real := ℚ

/-- The read `v[i]` of a `std::vector`: defined only inside the bounds. -/
def readAt {α : Type} (v : List α) (i : Nat) : Except Failure α :=
  match v[i]? with
  | some a => .ok a
  | none => .error .outOfRange

/-- A C++ `assert(c)`. -/
def assertThat (c : Bool) : Except Failure Unit :=
  if c then .ok () else .error .assertion

/-- Embedding of `CombiThirdLevelScheme::decomposeScheme` (lines 40-63).  The two output vectors are
reference parameters: the halves are pushed onto whatever they hold at entry.
`numSystems` is used by the source for `reserve` only. -/
def decomposeScheme (fullScheme : List LevelVector) (fullSchemeCoeffs : List real)
    (decomposedScheme : List (List LevelVector)) (decomposedCoeffs : List (List real))
    (numSystems : Nat) :
    Except Failure (List (List LevelVector) × List (List real)) := do
  let mid := fullScheme.length / 2
  let midC := fullSchemeCoeffs.length / 2
  let lowerHalf := fullScheme.take mid
  let lowerCoeffs := fullSchemeCoeffs.take midC
  let upperHalf := fullScheme.drop mid
  let upperCoeffs := fullSchemeCoeffs.drop midC
  assertThat (!lowerHalf.isEmpty && !upperHalf.isEmpty)
  assertThat (lowerHalf.length + upperHalf.length == fullScheme.length)
  assertThat (lowerCoeffs.length + upperCoeffs.length == fullSchemeCoeffs.length)
  let decomposedScheme := decomposedScheme ++ [lowerHalf]
  let decomposedScheme := decomposedScheme ++ [upperHalf]
  let decomposedCoeffs := decomposedCoeffs ++ [lowerCoeffs]
  let decomposedCoeffs := decomposedCoeffs ++ [upperCoeffs]
  return (decomposedScheme, decomposedCoeffs)

/-- The constant `longMax` of `computeCommonSubspaces` (line 76). -/
def longMax : Int := 2147483647

/-- Lines 82-86 of `computeCommonSubspaces`: the loop over the levels of one part that
raises `dimMax` to the largest entry `level[d]`. -/
def dimMaxLoop (d : Nat) : List LevelVector → Int → Except Failure Int
  | [], dimMax => .ok dimMax
  | level :: rest, dimMax => do
    let v ← readAt level d
    dimMaxLoop d rest (if v > dimMax then v else dimMax)

/-- Lines 80-89 of `computeCommonSubspaces`: the loop over the parts that lowers
`maxLevel[d]` to the smallest `dimMax` of a part. -/
def partsMaxLoop (d : Nat) :
    List (List LevelVector) → LevelVector → Except Failure LevelVector
  | [], maxLevel => .ok maxLevel
  | levels :: rest, maxLevel => do
    let dimMax ← dimMaxLoop d levels 0
    let cur ← readAt maxLevel d
    partsMaxLoop d rest (if dimMax < cur then maxLevel.set d dimMax else maxLevel)

/-- Lines 79-90 of `computeCommonSubspaces`: the loop over the dimensions. -/
def maxLevelLoop (decomposedScheme : List (List LevelVector)) :
    List Nat → LevelVector → Except Failure LevelVector
  | [], maxLevel => .ok maxLevel
  | d :: rest, maxLevel => do
    let maxLevel ← partsMaxLoop d decomposedScheme maxLevel
    maxLevelLoop decomposedScheme rest maxLevel

/-- Lines 76-90 of `computeCommonSubspaces`: the dimension `dim`, read from the first level
of the first part, and the bound vector `maxLevel` handed to the sparse grid. -/
def computeMaxLevel (decomposedScheme : List (List LevelVector)) :
    Except Failure (Nat × LevelVector) := do
  let part0 ← readAt decomposedScheme 0
  let level0 ← readAt part0 0
  let dim := level0.length
  let maxLevel := List.replicate dim longMax
  let maxLevel ← maxLevelLoop decomposedScheme (List.range dim) maxLevel
  return (dim, maxLevel)

/-- Lines 107-112 of `computeCommonSubspaces`: the loop over the dimensions that looks for
an entry with `ss[d] > level[d]`; the result is `true` when the `break` is taken. -/
def exceedsLoop (ss level : LevelVector) : List Nat → Except Failure Bool
  | [] => .ok false
  | d :: rest => do
    let a ← readAt ss d
    let b ← readAt level d
    if a > b then return true else exceedsLoop ss level rest

/-- Lines 105-113 of `computeCommonSubspaces`: the loop over the levels of one part that
counts in `numLevelsNotContained` the levels that do not contain `ss`.  The counter is an
`int` in the source; it stays below the size of the part, which is taken to fit. -/
def notContainedLoop (ss : LevelVector) (dim : Nat) :
    List LevelVector → Nat → Except Failure Nat
  | [], numLevelsNotContained => .ok numLevelsNotContained
  | level :: rest, numLevelsNotContained => do
    let exceeded ← exceedsLoop ss level (List.range dim)
    notContainedLoop ss dim rest
      (if exceeded then numLevelsNotContained + 1 else numLevelsNotContained)

/-- Lines 104-118 of `computeCommonSubspaces`: the loop over the parts; the result is
`true` when `ss` is pushed onto `elementsToDelete` (and the loop left by `break`). -/
def deleteLoop (ss : LevelVector) (dim : Nat) :
    List (List LevelVector) → Except Failure Bool
  | [] => .ok false
  | levels :: rest => do
    let numLevelsNotContained ← notContainedLoop ss dim levels 0
    if numLevelsNotContained == levels.length then return true
    else deleteLoop ss dim rest

/-- Lines 102-119 of `computeCommonSubspaces`: the loop over the possible common
subspaces that collects `elementsToDelete`. -/
def elementsToDeleteLoop (decomposedScheme : List (List LevelVector)) (dim : Nat) :
    List LevelVector → List LevelVector → Except Failure (List LevelVector)
  | [], elementsToDelete => .ok elementsToDelete
  | ss :: rest, elementsToDelete => do
    let del ← deleteLoop ss dim decomposedScheme
    elementsToDeleteLoop decomposedScheme dim rest
      (if del then elementsToDelete ++ [ss] else elementsToDelete)

/-- The class `SGrid` is declared outside the sources at hand.  `computeCommonSubspaces`
uses it through the constructor `SGrid<real> sg(dim, maxLevel, maxLevel, boundary)` and the
enumeration `sg.getLevelVector(ssID)` for `ssID < sg.getSize()` only, so it is taken as a
parameter: the function from the constructor arguments to the enumerated level vectors. -/
abbrev SGridLevels := Nat → LevelVector → LevelVector → List Bool → List LevelVector

/-- Embedding of `CombiThirdLevelScheme::computeCommonSubspaces` (lines 71-132): the bound
vector, the enumeration of the sparse grid, the elements to delete, and the final filter. -/
def computeCommonSubspaces (sg : SGridLevels)
    (decomposedScheme : List (List LevelVector)) (boundary : List Bool) :
    Except Failure (List LevelVector) := do
  let (dim, maxLevel) ← computeMaxLevel decomposedScheme
  let possibleCommonSubspaces := sg dim maxLevel maxLevel boundary
  let elementsToDelete ←
    elementsToDeleteLoop decomposedScheme dim possibleCommonSubspaces []
  if elementsToDelete.length > 0 then
    return possibleCommonSubspaces.filter (fun ss => !elementsToDelete.contains ss)
  else
    return possibleCommonSubspaces

/-- Embedding of `CombiThirdLevelScheme::createThirdLevelScheme` (lines 7-28).  The result holds the
values of the reference parameters `levels`, `coeffs` and `commonSubspaces` on return. -/
def createThirdLevelScheme (sg : SGridLevels) (levels : List LevelVector)
    (coeffs : List real) (commonSubspaces : List LevelVector) (boundary : List Bool)
    (systemNumber numSystems : Nat) :
    Except Failure (List LevelVector × List real × List LevelVector) := do
  assertThat (!levels.isEmpty && !coeffs.isEmpty)
  if numSystems < 2 then
    return (levels, coeffs, commonSubspaces)
  let (decomposedScheme, decomposedCoeffs) ←
    decomposeScheme levels coeffs [] [] numSystems
  let levels ← readAt decomposedScheme systemNumber
  let coeffs ← readAt decomposedCoeffs systemNumber
  let commonSubspaces ← computeCommonSubspaces sg decomposedScheme boundary
  return (levels, coeffs, commonSubspaces)

/-- Embedding of `ParaboloidFn::operator()` (TaskConstParaboloid.hpp, lines 12-21) over exact
arithmetic: `result` starts at `sign` and is multiplied by `coords[d] * (coords[d] - 1)`
for every `d` in turn. -/
def ParaboloidFn (coords : List ℚ) : ℚ :=
  let dim := coords.length
  let sign : ℚ := if dim % 2 ≠ 0 then 1 else -1
  coords.foldl (fun result x => result * (x * (x - 1))) sign

/-! ### The type `double`

`ParaboloidFn` computes in the C++ type `double`.  The values and the two operations that it
uses, the product and the difference, are embedded as IEEE 754 binary64 has them, in the
default rounding mode (to nearest, ties to even): 53 bits of precision, exponents of the
least bit from `-1074` on, magnitudes below `2 ^ 1024`, signed zeros, infinities and NaN. -/

/-- A value of the C++ type `double`: `finite neg m e` is `(-1) ^ neg * m * 2 ^ e` (a zero,
with its sign, when `m = 0`), `inf neg` is an infinity and `nan` is a NaN.  The same number
can be written with several pairs `m`, `e`; the operations depend on the number only. -/
inductive Double where
  | finite (neg : Bool) (m : Nat) (e : Int)
  | inf (neg : Bool)
  | nan
  deriving DecidableEq

/-- The negation `-a` of a double. -/
def Double.neg : Double → Double
  | .finite s m e => .finite (!s) m e
  | .inf s => .inf (!s)
  | .nan => .nan

/-- The comparison `a == 0`: true for `+0` and for `-0`. -/
def Double.isZero : Double → Bool
  | .finite _ m _ => m == 0
  | _ => false

/-- A finite value of magnitude at most 1. -/
def Double.AbsLeOne : Double → Prop
  | .finite _ m e => m = 0 ∨ (e ≤ 0 ∧ m ≤ 2 ^ (-e).toNat)
  | _ => False

/-- An enumeration used for concrete evaluations: every vector with entries between
`1` and the bound, in the first `dim` dimensions. -/
def exampleSGrid : SGridLevels := fun dim nmax _ _ =>
  (List.range dim).foldr
    (fun d acc => (List.range (nmax.getD d 0).toNat).flatMap
      (fun k => acc.map (fun v => ((k : Int) + 1) :: v))) [[]]

/-! ### The process manager (`ProcessManager.hpp`)

The manager talks to the process groups, to MPI and to the relay client through calls whose
bodies are outside the sources at hand.  A run of a manager function is embedded as the list
of these calls in the order in which they are made (its trace), together with the result of
the run.  What the calls answer is taken from a `ManagerEnv`.  The calls are taken to
return; the failures of a run are the failing assertions of the manager itself. -/

/-- The status of a process group (`StatusType`; the spec gives WAIT = 0, BUSY = 1,
FAIL = 2). -/
inductive StatusType where
  | PROCESS_GROUP_WAIT
  | PROCESS_GROUP_BUSY
  | PROCESS_GROUP_FAIL
  deriving DecidableEq

/-- The calls that the manager functions make, one constructor for each callee. -/
inductive Event where
  /-- The call `pgroups_[i]->getStatus()`, with its answer. -/
  | getStatus (i : Nat) (s : StatusType)
  /-- The call `pgroups_[i]->combine()`. -/
  | combine (i : Nat)
  /-- The call `pgroups_[i]->combineLocalAndGlobal()`. -/
  | combineLocalAndGlobal (i : Nat)
  /-- The call `waitAllFinished()`. -/
  | waitAllFinished
  /-- The call `thirdLevel_.signalReady()`. -/
  | signalReady
  /-- The call `thirdLevel_.fetchInstruction()`, with its answer. -/
  | fetchInstruction (instruction : String)
  /-- The call `TLReducePGroup_->gatherCommonSubspaces()`. -/
  | gatherCommonSubspaces
  /-- The call `MPI_Gather` that collects the part sizes. -/
  | MPI_Gather
  /-- The call `MPI_Gatherv`, with its receive counts and displacements. -/
  | MPI_Gatherv (recvcounts displs : List Int)
  /-- The call `sendCommonSubspacesToRemote()`, a function that the sources at hand neither
  declare nor define. -/
  | sendCommonSubspacesToRemote
  /-- The call `thirdLevel_.sendCommonSubspaces(commonSubspaces)`: the send to the relay. -/
  | sendCommonSubspaces
  /-- The call `thirdLevel_.receiveCommonSubspaces(commonSubspaces)`: the receive from the
  relay. -/
  | receiveCommonSubspaces
  /-- The call `integrateSubspaces()`. -/
  | integrateSubspaces
  /-- The call `combineRemoteAndLocalSubspaces()`, the reduce of the remote buffer with the
  local common subspaces. -/
  | combineRemoteAndLocalSubspaces
  deriving DecidableEq

/-- Why an observed run ends before the function returns. -/
inductive Stop where
  /-- The run was aborted. -/
  | failure (f : Failure)
  /-- The polling loop was still running after the observed number of sweeps. -/
  | polling
  deriving DecidableEq

/-- A run: the calls made so far and the result. -/
structure Traced (α : Type) where
  trace : List Event
  result : Except Stop α

/-- Sequencing of runs: the second run happens when the first one returns. -/
def Traced.andThen {α β : Type} (x : Traced α) (f : α → Traced β) : Traced β :=
  match x.result with
  | .ok a => ⟨x.trace ++ (f a).trace, (f a).result⟩
  | .error e => ⟨x.trace, .error e⟩

instance : Monad Traced where
  pure a := ⟨[], .ok a⟩
  bind := Traced.andThen

/-- One call to the outside. -/
def call (e : Event) : Traced Unit := ⟨[e], .ok ()⟩

/-- A C++ `assert(c)` inside a manager function. -/
def check (c : Bool) : Traced Unit :=
  ⟨[], if c then .ok () else .error (.failure .assertion)⟩

/-- What the calls of one run answer. -/
structure ManagerEnv where
  /-- The value of `pgroups_.size()`. -/
  numGroups : Nat
  /-- The answer of `pgroups_[i]->getStatus()` in sweep `t` of the polling loop:
  `getStatus t i`. -/
  getStatus : Nat → Nat → StatusType
  /-- The answer of `pgroups_[i]->combine()`. -/
  combineSuccess : Nat → Bool
  /-- The answer of `pgroups_[i]->combineLocalAndGlobal()`. -/
  combineLocalAndGlobalSuccess : Nat → Bool
  /-- The answer of `theMPISystem()->isThirdLevelReduceManager()`. -/
  isThirdLevelReduceManager : Bool
  /-- The answer of `thirdLevel_.fetchInstruction()`. -/
  instruction : String
  /-- The answer of `TLReducePGroup_->gatherCommonSubspaces()`. -/
  gatherCommonSubspacesSuccess : Bool
  /-- The part sizes that `MPI_Gather` delivers, one for each rank of the third level
  reduce communicator (its length is `thirdLevelReduceCommSize`). -/
  commonSSPartsSizes : List Int

/-- The value of a 32 bit `int` after an arithmetic operation (two's complement). -/
def wrapInt32 (x : Int) : Int := (x + 2 ^ 31) % 2 ^ 32 - 2 ^ 31

/-- Lines 114-117 of `ProcessManager::wait`: one sweep over the groups; the result is the
index of the group that is returned, if the sweep returns one. -/
def waitSweepLoop (env : ManagerEnv) (t : Nat) : List Nat → Traced (Option Nat)
  | [] => pure none
  | i :: rest => do
    let s := env.getStatus t i
    call (.getStatus i s)
    if s = .PROCESS_GROUP_WAIT then pure (some i) else waitSweepLoop env t rest

/-- Embedding of `ProcessManager::wait` (lines 112-119), observed for `fuel` sweeps that
start with sweep `t`.  The returned group `pgroups_[i]` is given by its index `i`. -/
def wait (env : ManagerEnv) : Nat → Nat → Traced Nat
  | 0, _ => ⟨[], .error .polling⟩
  | fuel + 1, t => do
    match (← waitSweepLoop env t (List.range env.numGroups)) with
    | some i => pure i
    | none => wait env fuel (t + 1)

/-- The `for` loop of the polling loop (lines 159-162, 186-189): one sweep that counts the
groups in state WAIT. -/
def countWaitingLoop (env : ManagerEnv) (t : Nat) : List Nat → Nat → Traced Nat
  | [], numWaiting => pure numWaiting
  | i :: rest, numWaiting => do
    let s := env.getStatus t i
    call (.getStatus i s)
    countWaitingLoop env t rest (if s = .PROCESS_GROUP_WAIT then numWaiting + 1 else numWaiting)

/-- The polling loop `while (numWaiting != pgroups_.size())` (lines 156-163, 183-190),
observed for `fuel` sweeps that start with sweep `t`. -/
def waitAllWaitingLoop (env : ManagerEnv) : Nat → Nat → Nat → Traced Unit
  | 0, _, numWaiting =>
    if numWaiting != env.numGroups then ⟨[], .error .polling⟩ else pure ()
  | fuel + 1, t, numWaiting =>
    if numWaiting != env.numGroups then do
      let numWaiting ← countWaitingLoop env t (List.range env.numGroups) 0
      waitAllWaitingLoop env fuel (t + 1) numWaiting
    else pure ()

/-- The loops that send a signal to each group (lines 166-169, 193-196): the call and the
assertion on its answer. -/
def signalLoop (send : Nat → Event) (success : Nat → Bool) : List Nat → Traced Unit
  | [] => pure ()
  | i :: rest => do
    call (send i)
    check (success i)
    signalLoop send success rest

/-- Embedding of `ProcessManager::combine` (lines 151-172). -/
def combine (env : ManagerEnv) (fuel : Nat) : Traced Unit := do
  waitAllWaitingLoop env fuel 0 0
  signalLoop .combine env.combineSuccess (List.range env.numGroups)
  call .waitAllFinished

/-- The `std::accumulate` of line 240 over `int`. -/
def accumulateInt (sizes : List Int) : Int :=
  sizes.foldl (fun acc x => wrapInt32 (acc + x)) 0

/-- Lines 244-245 of `gatherCommonSubSpacesFromThirdLevelReducePG`: the loop that fills
`displ`.  The reads are inside the bounds by the loop condition. -/
def displLoop (commonSSPartsSizes : List Int) : List Nat → List Int → List Int
  | [], displ => displ
  | i :: rest, displ =>
    displLoop commonSSPartsSizes rest
      (displ.set i (wrapInt32 (displ.getD (i - 1) 0 + commonSSPartsSizes.getD (i - 1) 0)))

/-- The call `commonSubspaces.resize(buffSize)` of line 241, with the new size of the vector
as the result.  The parameter of `resize` is a `size_t`: the conversion of a negative `int`
gives a value of at least `2 ^ 64 - 2 ^ 31`, which is above the `max_size()` of the vector,
and `resize` throws `std::length_error`.  No handler is in sight, so the run ends there.
A non-negative `int` is below `max_size()`; the allocation itself is taken to succeed. -/
def resizeCommonSubspaces (buffSize : Int) : Traced Nat :=
  if buffSize < 0 then ⟨[], .error (.failure .lengthError)⟩
  else pure (buffSize % 2 ^ 64).toNat

/-- Embedding of `ProcessManager::gatherCommonSubSpacesFromThirdLevelReducePG` (lines
223-249).  The result is the size of `commonSubspaces` after `resize(buffSize)`. -/
def gatherCommonSubSpacesFromThirdLevelReducePG (env : ManagerEnv) : Traced Nat := do
  let thirdLevelReduceCommSize := env.commonSSPartsSizes.length
  call .gatherCommonSubspaces
  check env.gatherCommonSubspacesSuccess
  let commonSSPartsSizes := env.commonSSPartsSizes
  call .MPI_Gather
  let buffSize := accumulateInt commonSSPartsSizes
  let commonSubspacesSize ← resizeCommonSubspaces buffSize
  let displ := List.replicate thirdLevelReduceCommSize (0 : Int)
  let displ := displLoop commonSSPartsSizes (List.range' 1 (thirdLevelReduceCommSize - 1)) displ
  call (.MPI_Gatherv commonSSPartsSizes displ)
  return commonSubspacesSize

/-- Lines 176-202 of `ProcessManager::combineThirdLevel`: everything up to and including
the fetch of the instruction, which is the result. -/
def combineThirdLevelPreamble (env : ManagerEnv) (fuel : Nat) : Traced String := do
  check env.isThirdLevelReduceManager
  waitAllWaitingLoop env fuel 0 0
  signalLoop .combineLocalAndGlobal env.combineLocalAndGlobalSuccess
    (List.range env.numGroups)
  call .waitAllFinished
  call .signalReady
  let instruction := env.instruction
  call (.fetchInstruction instruction)
  return instruction

/-- Lines 204-220 of `ProcessManager::combineThirdLevel`: the exchange with the relay that
the instruction asks for. -/
def combineThirdLevelExchange (env : ManagerEnv) (instruction : String) : Traced Unit := do
  if instruction = "sendSubspaces" then
    let _ ← gatherCommonSubSpacesFromThirdLevelReducePG env
    call .sendCommonSubspacesToRemote
    call .sendCommonSubspaces
    call .receiveCommonSubspaces
    call .integrateSubspaces
  else if instruction = "receiveSubspaces" then
    call .receiveCommonSubspaces
    call .combineRemoteAndLocalSubspaces
    let _ ← gatherCommonSubSpacesFromThirdLevelReducePG env
    call .sendCommonSubspaces

/-- Embedding of `ProcessManager::combineThirdLevel` (lines 174-221). -/
def combineThirdLevel (env : ManagerEnv) (fuel : Nat) : Traced Unit := do
  let instruction ← combineThirdLevelPreamble env fuel
  combineThirdLevelExchange env instruction

/-- An environment used for concrete evaluations: two groups, the first sweep finds group 1
busy, the second finds both waiting; every call succeeds. -/
def exampleEnv (instruction : String) : ManagerEnv where
  numGroups := 2
  getStatus := fun t i =>
    if t = 0 ∧ i = 1 then .PROCESS_GROUP_BUSY else .PROCESS_GROUP_WAIT
  combineSuccess := fun _ => true
  combineLocalAndGlobalSuccess := fun _ => true
  isThirdLevelReduceManager := true
  instruction := instruction
  gatherCommonSubspacesSuccess := true
  commonSSPartsSizes := [0, 3, 5]

/-- The calls that belong to the exchange of common subspaces: the gather from the third
level reduce group, the transfers to and from the relay, and the integration of the remote
data. -/
def Event.isSubspaceTransfer : Event → Bool
  | .gatherCommonSubspaces => true
  | .MPI_Gather => true
  | .MPI_Gatherv _ _ => true
  | .sendCommonSubspacesToRemote => true
  | .sendCommonSubspaces => true
  | .receiveCommonSubspaces => true
  | .integrateSubspaces => true
  | .combineRemoteAndLocalSubspaces => true
  | _ => false

/-- In sweep `t` every process group answers WAIT. -/
def AllWaiting (env : ManagerEnv) (t : Nat) : Prop :=
  ∀ i, i < env.numGroups → env.getStatus t i = .PROCESS_GROUP_WAIT

/-- The calls of one full sweep `t` over the groups. -/
def sweepTrace (env : ManagerEnv) (t : Nat) : List Event :=
  (List.range env.numGroups).map (fun i => Event.getStatus i (env.getStatus t i))

/-- Conditions under which `combineThirdLevel` gets as far as the instruction: the process
is the third level reduce manager, some observed sweep finds all groups waiting, and every
group accepts the signal. -/
def ReachesInstruction (env : ManagerEnv) (fuel : Nat) : Prop :=
  env.isThirdLevelReduceManager = true ∧ (∃ T, T < fuel ∧ AllWaiting env T) ∧
    ∀ i, i < env.numGroups → env.combineLocalAndGlobalSuccess i = true

/-- The displacements that `gatherCommonSubSpacesFromThirdLevelReducePG` hands to
`MPI_Gatherv`. -/
def gatherDispl (env : ManagerEnv) : List Int :=
  displLoop env.commonSSPartsSizes (List.range' 1 (env.commonSSPartsSizes.length - 1))
    (List.replicate env.commonSSPartsSizes.length (0 : Int))

/-- The calls of the exchange for the instruction "sendSubspaces", in the order of lines
208-212. -/
def sendSubspacesCalls (env : ManagerEnv) : List Event :=
  [.gatherCommonSubspaces, .MPI_Gather, .MPI_Gatherv env.commonSSPartsSizes (gatherDispl env),
    .sendCommonSubspacesToRemote, .sendCommonSubspaces, .receiveCommonSubspaces,
    .integrateSubspaces]

/-- The calls of the exchange for the instruction "receiveSubspaces", in the order of lines
216-219. -/
def receiveSubspacesCalls (env : ManagerEnv) : List Event :=
  [.receiveCommonSubspaces, .combineRemoteAndLocalSubspaces, .gatherCommonSubspaces,
    .MPI_Gather, .MPI_Gatherv env.commonSSPartsSizes (gatherDispl env), .sendCommonSubspaces]

/-! ### The test of the static task assignment (`test_thirdLevel.cpp`) -/

/-- The operations of `ProcessManager` that the manager side of the tests calls. -/
inductive ManagerCommand where
  | updateCombiParameters
  | runfirst
  | runnext
  | initDsgus
  | unifySubspaceSizesThirdLevel
  | combineThirdLevel
  | exit
  deriving DecidableEq

/-- Modelled from the spec: the signals of section 6 (`ProcessGroupSignals.hpp` is not among
the sources at hand). -/
inductive SignalType where
  | RUN_FIRST
  | RUN_NEXT
  | COMBINE
  | COMBINE_THIRD_LEVEL
  | INIT_DSGUS
  | REDUCE_SUBSPACE_SIZES_TL
  | WAIT_FOR_TL_SIZE_UPDATE
  | UPDATE_COMBI_PARAMETERS
  | GRID_EVAL
  | PARALLEL_EVAL
  | EVAL_NORM
  | INTERPOLATE_VALUES
  | EXIT
  deriving DecidableEq

/-- The body of the loop over the combination steps in
`testCombineThirdLevelStaticTaskAssignment` (lines 414-439): the manager calls of step
`i`. -/
def staticTaskAssignmentStep (i : Nat) : List ManagerCommand :=
  (if i = 0 then [.runnext, .initDsgus, .unifySubspaceSizesThirdLevel] else [.runnext]) ++
    [.combineThirdLevel]

/-- The manager side of `testCombineThirdLevelStaticTaskAssignment` (lines 409-442): the
calls on `manager`, in order. -/
def staticTaskAssignmentManager (ncombi : Nat) : List ManagerCommand :=
  [.updateCombiParameters] ++ (List.range ncombi).flatMap staticTaskAssignmentStep ++ [.exit]

/-- Modelled from the spec: the signals that the manager operations send to the workers
(sections 4.E to 4.G); the operations themselves are outside the sources at hand.  Each
operation sends the signal of its name; the size unification sends the two signals that the
spec lists for it. -/
def exampleSignalsOf : ManagerCommand → List SignalType
  | .updateCombiParameters => [.UPDATE_COMBI_PARAMETERS]
  | .runfirst => [.RUN_FIRST]
  | .runnext => [.RUN_NEXT]
  | .initDsgus => [.INIT_DSGUS]
  | .unifySubspaceSizesThirdLevel => [.REDUCE_SUBSPACE_SIZES_TL, .WAIT_FOR_TL_SIZE_UPDATE]
  | .combineThirdLevel => [.COMBINE_THIRD_LEVEL]
  | .exit => [.EXIT]

/-! ### `TaskConstParaboloid` (`TaskConstParaboloid.hpp`) -/

/-- The state of a `TaskConstParaboloid` that its methods touch: the local data of its
distributed full grid `dfg_` and the flag behind `isFinished()`. -/
structure TaskConstParaboloid where
  data : List ℚ
  finished : Bool

/-- Embedding of `TaskConstParaboloid::init` (lines 34-64): the new grid holds, for every
local index `li`, the value of `ParaboloidFn` at `getCoordsLocal(li)`; the coordinates of
the local points are given by `localCoords`. -/
def TaskConstParaboloid.init (localCoords : List (List ℚ)) (t : TaskConstParaboloid) :
    TaskConstParaboloid :=
  { t with data := localCoords.map ParaboloidFn }

/-- Modelled from the spec: `Task::setFinished(bool)` of the base class `Task`, which is
outside the sources at hand; it sets the flag that `isFinished()` reads (section 4.B-4.D). -/
def TaskConstParaboloid.setFinished (finished : Bool) (t : TaskConstParaboloid) :
    TaskConstParaboloid :=
  { t with finished := finished }

/-- Embedding of `TaskConstParaboloid::run` (lines 66-70): `setFinished(true)`; the barrier
that follows touches no state of the task. -/
def TaskConstParaboloid.run (t : TaskConstParaboloid) : TaskConstParaboloid :=
  t.setFinished true

/-! ### `SelalibTask` (`SelalibTask.hpp`) -/

/-- The value of a string literal used as a condition.  In C++ the literal is an array that
converts to a pointer to its first character; the pointer is not null, so the condition
holds whatever the text is. -/
def stringLiteralAsCondition (text : String) : Bool := true

/-- The body `{ assert("not yet implemented"); }` that the operations below share. -/
def notYetImplementedBody : Except Failure Unit :=
  assertThat (stringLiteralAsCondition "not yet implemented")

/-- The constructor of `SelalibTask` with arguments (lines 46-51). -/
def SelalibTask.construct : Except Failure Unit := notYetImplementedBody

/-- The default constructor of `SelalibTask` (line 53). -/
def SelalibTask.constructDefault : Except Failure Unit := notYetImplementedBody

/-- Embedding of `SelalibTask::run` (line 59). -/
def SelalibTask.run : Except Failure Unit := notYetImplementedBody

/-- Embedding of `SelalibTask::changeDir` (line 65). -/
def SelalibTask.changeDir : Except Failure Unit := notYetImplementedBody

/-- Embedding of `SelalibTask::init` (lines 72-75). -/
def SelalibTask.init : Except Failure Unit := notYetImplementedBody

/-- Embedding of `SelalibTask::decideToKill` (line 85). -/
def SelalibTask.decideToKill : Except Failure Unit := notYetImplementedBody

/-- Embedding of `SelalibTask::writeLocalDistribution` (line 95). -/
def SelalibTask.writeLocalDistribution : Except Failure Unit := notYetImplementedBody

/-- Embedding of `SelalibTask::setZero` (line 105). -/
def SelalibTask.setZero : Except Failure Unit := notYetImplementedBody

/-! ### Tasks of the process manager (`ProcessManager.hpp`) -/

/-- Embedding of `ProcessManager::addTask` (lines 108-110): `tasks_.push_back(t)`.  The class
`Task` is outside the sources at hand, so the type of the tasks is a parameter. -/
def addTask {Task : Type} (tasks_ : List Task) (t : Task) : List Task :=
  tasks_ ++ [t]

/-- Embedding of `ProcessManager::getTask` (lines 342-351); `none` is the null pointer.  The
identifier that `getID()` answers is a parameter of the embedding; identifiers are compared
as integers. -/
def getTask {Task : Type} (getID : Task → Int) : List Task → Int → Option Task
  | [], _ => none
  | tmp :: rest, taskID => if getID tmp = taskID then some tmp else getTask getID rest taskID

/-! ### The configuration (`Config.hpp`) -/

/-- The preprocessor flags that `Config.hpp` tests with `#ifdef`: `true` when the flag is
defined. -/
structure Flags where
  USENONBLOCKINGMPICOLLECTIVE : Bool
  OMITREADYSIGNAL : Bool
  UNIFORMDECOMPOSITION : Bool
  ENABLEFT : Bool
  ISGENE : Bool
  deriving DecidableEq

/-- The two element types of a grid: `real` and `complex` (lines 31, 34). -/
inductive ElementType where
  | real
  | complex
  deriving DecidableEq

/-- The constants and the type that `Config.hpp` declares. -/
structure Config where
  USE_NONBLOCKING_MPI_COLLECTIVE : Bool
  omitReadySignal : Bool
  uniformDecomposition : Bool
  ENABLE_FT : Bool
  isGENE : Bool
  CombiDataType : ElementType
  reverseOrderingDFGPartitions : Bool
  deriving DecidableEq

/-- The ways in which the header does not compile. -/
inductive CompileError where
  /-- A name is used above its declaration. -/
  | undeclared (name : String)
  /-- A `static_assert` does not hold. -/
  | staticAssert
  deriving DecidableEq

/-- A `static_assert(c)`. -/
def staticAssert (c : Bool) : Except CompileError Unit :=
  if c then .ok () else .error .staticAssert

/-- The use of a type name at a point of the header: the name has to be declared above that
point. -/
def lookupType (name : String) (declaredAbove : Option ElementType) :
    Except CompileError ElementType :=
  match declaredAbove with
  | some t => .ok t
  | none => .error (.undeclared name)

/-- Embedding of the declarations of `namespace combigrid` in `Config.hpp` (lines 42-98), in
the order of the header.  The `static_assert` of line 76 names `CombiDataType`, whose
`typedef` follows in lines 87 and 91; nothing above line 76 declares it. -/
def compileConfig (flags : Flags) : Except CompileError Config := do
  let USE_NONBLOCKING_MPI_COLLECTIVE := flags.USENONBLOCKINGMPICOLLECTIVE
  let omitReadySignal := flags.OMITREADYSIGNAL
  let uniformDecomposition := flags.UNIFORMDECOMPOSITION
  let ENABLE_FT := flags.ENABLEFT
  let combiDataTypeAboveLine76 : Option ElementType := none
  let isGENE ←
    if flags.ISGENE then do
      let t ← lookupType "CombiDataType" combiDataTypeAboveLine76
      staticAssert (t == .complex)
      pure true
    else pure false
  let CombiDataType := if flags.ISGENE then ElementType.complex else ElementType.real
  let reverseOrderingDFGPartitions := if flags.ISGENE then true else false
  staticAssert (!isGENE || reverseOrderingDFGPartitions)
  return { USE_NONBLOCKING_MPI_COLLECTIVE, omitReadySignal, uniformDecomposition, ENABLE_FT,
           isGENE, CombiDataType, reverseOrderingDFGPartitions }

/-- Closed form of `dimMaxLoop`, used in the proofs: the value of `dimMax` after the loop,
with entries read by `getD`. -/
def dimMaxVal (d : Nat) : List LevelVector → Int → Int
  | [], dimMax => dimMax
  | level :: rest, dimMax =>
    dimMaxVal d rest (if level.getD d 0 > dimMax then level.getD d 0 else dimMax)

/-- Closed form of `partsMaxLoop`, used in the proofs: the value of `maxLevel[d]` after
the loop, started at `cur`. -/
def partsMinVal (d : Nat) : List (List LevelVector) → Int → Int
  | [], cur => cur
  | levels :: rest, cur =>
    partsMinVal d rest (if dimMaxVal d levels 0 < cur then dimMaxVal d levels 0 else cur)

/-! ## Helper lemmas -/

theorem assertThat_true : assertThat true = .ok () := rfl

/-- With at least two levels both halves are non-empty, so every assertion of
`decomposeScheme` holds and the call returns the two halves. -/
theorem decomposeScheme_eq (fullScheme : List LevelVector) (fullSchemeCoeffs : List real)
    (ds : List (List LevelVector)) (dc : List (List real)) (numSystems : Nat)
    (hn : 2 ≤ fullScheme.length) :
    decomposeScheme fullScheme fullSchemeCoeffs ds dc numSystems =
      .ok (ds ++ [fullScheme.take (fullScheme.length / 2),
                  fullScheme.drop (fullScheme.length / 2)],
           dc ++ [fullSchemeCoeffs.take (fullSchemeCoeffs.length / 2),
                  fullSchemeCoeffs.drop (fullSchemeCoeffs.length / 2)]) := by
  have h1 : (fullScheme.take (fullScheme.length / 2)).isEmpty = false := by
    cases h : fullScheme.take (fullScheme.length / 2) with
    | nil =>
      have hl : (fullScheme.take (fullScheme.length / 2)).length = fullScheme.length / 2 := by
        rw [List.length_take]; omega
      rw [h, List.length_nil] at hl
      omega
    | cons a t => rfl
  have h2 : (fullScheme.drop (fullScheme.length / 2)).isEmpty = false := by
    cases h : fullScheme.drop (fullScheme.length / 2) with
    | nil =>
      have hl : (fullScheme.drop (fullScheme.length / 2)).length =
          fullScheme.length - fullScheme.length / 2 := List.length_drop _ _
      rw [h, List.length_nil] at hl
      omega
    | cons a t => rfl
  have h3 : ((fullScheme.take (fullScheme.length / 2)).length +
      (fullScheme.drop (fullScheme.length / 2)).length == fullScheme.length) = true := by
    simp; omega
  have h4 : ((fullSchemeCoeffs.take (fullSchemeCoeffs.length / 2)).length +
      (fullSchemeCoeffs.drop (fullSchemeCoeffs.length / 2)).length ==
        fullSchemeCoeffs.length) = true := by
    simp; omega
  unfold decomposeScheme
  simp only [h1, h2, h3, h4, Bool.not_false, Bool.and_self, assertThat_true]
  simp [bind, Except.bind, pure, Except.pure]

theorem readAt_int_of_lt (v : LevelVector) (i : Nat) (h : i < v.length) :
    readAt v i = .ok (v.getD i 0) := by
  simp [readAt, List.getElem?_eq_getElem h, List.getD_eq_getElem?_getD]

theorem set_getD_self (v : LevelVector) (d : Nat) (hd : d < v.length) :
    v.set d (v.getD d 0) = v := by
  induction v generalizing d with
  | nil => rfl
  | cons a t ih =>
    cases d with
    | zero => rfl
    | succ k =>
      have hk : k < t.length := by simpa using hd
      simpa using ih k hk

theorem dimMaxLoop_eq (d : Nat) (levels : List LevelVector)
    (h : ∀ l ∈ levels, d < l.length) (m : Int) :
    dimMaxLoop d levels m = .ok (dimMaxVal d levels m) := by
  induction levels generalizing m with
  | nil => rfl
  | cons l rest ih =>
    have hl : d < l.length := h l (List.mem_cons_self _ _)
    have hr : ∀ x ∈ rest, d < x.length := fun x hx => h x (List.mem_cons_of_mem _ hx)
    simp only [dimMaxLoop, dimMaxVal, readAt_int_of_lt l d hl, bind, Except.bind]
    exact ih hr _

theorem partsMaxLoop_eq (d : Nat) (parts : List (List LevelVector))
    (h : ∀ part ∈ parts, ∀ l ∈ part, d < l.length) (ml : LevelVector) (hd : d < ml.length) :
    partsMaxLoop d parts ml = .ok (ml.set d (partsMinVal d parts (ml.getD d 0))) := by
  induction parts generalizing ml with
  | nil =>
    simp only [partsMaxLoop, partsMinVal, set_getD_self ml d hd]
  | cons part rest ih =>
    have hp : ∀ l ∈ part, d < l.length := h part (List.mem_cons_self _ _)
    have hr : ∀ x ∈ rest, ∀ l ∈ x, d < l.length :=
      fun x hx => h x (List.mem_cons_of_mem _ hx)
    simp only [partsMaxLoop, partsMinVal, dimMaxLoop_eq d part hp, readAt_int_of_lt ml d hd,
      bind, Except.bind]
    by_cases hlt : dimMaxVal d part 0 < ml.getD d 0
    · simp only [hlt, if_true]
      rw [ih hr _ (by simpa using hd)]
      simp [List.getD_eq_getElem?_getD, List.getElem?_set, hd]
    · simp only [hlt, if_false]
      exact ih hr _ hd

theorem maxLevelLoop_eq (ds : List (List LevelVector)) (idxs : List Nat) (ml : LevelVector)
    (hnd : idxs.Nodup) (hi : ∀ d ∈ idxs, d < ml.length)
    (h : ∀ d ∈ idxs, ∀ part ∈ ds, ∀ l ∈ part, d < l.length) :
    ∃ r, maxLevelLoop ds idxs ml = .ok r ∧ r.length = ml.length ∧
      ∀ j, r.getD j 0 =
        if j ∈ idxs then partsMinVal j ds (ml.getD j 0) else ml.getD j 0 := by
  induction idxs generalizing ml with
  | nil => exact ⟨ml, rfl, rfl, fun j => by simp⟩
  | cons d rest ih =>
    have hd : d < ml.length := hi d (List.mem_cons_self _ _)
    have hnd2 := List.nodup_cons.mp hnd
    obtain ⟨r, hr, hlen, hval⟩ := ih (ml.set d (partsMinVal d ds (ml.getD d 0))) hnd2.2
      (fun x hx => by simpa using hi x (List.mem_cons_of_mem _ hx))
      (fun x hx => h x (List.mem_cons_of_mem _ hx))
    refine ⟨r, ?_, by simpa using hlen, ?_⟩
    · simp only [maxLevelLoop, partsMaxLoop_eq d ds (h d (List.mem_cons_self _ _)) ml hd,
        bind, Except.bind]
      exact hr
    · intro j
      rw [hval j]
      by_cases hj : j ∈ rest
      · have hne : d ≠ j := fun e => hnd2.1 (e ▸ hj)
        simp [hj, List.getD_eq_getElem?_getD, List.getElem?_set, hne]
      · by_cases hjd : j = d
        · subst hjd
          simp [hj, List.getD_eq_getElem?_getD, List.getElem?_set, hd]
        · have hne : d ≠ j := fun e => hjd e.symm
          simp [hj, hjd, List.getD_eq_getElem?_getD, List.getElem?_set, hne]

theorem le_dimMaxVal (d : Nat) (levels : List LevelVector) (m : Int) :
    m ≤ dimMaxVal d levels m := by
  induction levels generalizing m with
  | nil => exact le_refl _
  | cons l rest ih =>
    simp only [dimMaxVal]
    split
    · exact le_trans (by omega) (ih _)
    · exact ih _

theorem getD_le_dimMaxVal (d : Nat) (levels : List LevelVector) (m : Int) :
    ∀ l ∈ levels, l.getD d 0 ≤ dimMaxVal d levels m := by
  induction levels generalizing m with
  | nil => intro l hl; cases hl
  | cons x rest ih =>
    intro l hl
    simp only [dimMaxVal]
    rcases List.mem_cons.mp hl with rfl | hl
    · refine le_trans ?_ (le_dimMaxVal d rest _)
      split <;> omega
    · exact ih _ l hl

theorem dimMaxVal_attained (d : Nat) (levels : List LevelVector) (m : Int) :
    dimMaxVal d levels m = m ∨ ∃ l ∈ levels, l.getD d 0 = dimMaxVal d levels m := by
  induction levels generalizing m with
  | nil => exact Or.inl rfl
  | cons x rest ih =>
    simp only [dimMaxVal]
    by_cases hx : x.getD d 0 > m
    · simp only [hx, if_true]
      rcases ih (x.getD d 0) with h | ⟨l, hl, hv⟩
      · exact Or.inr ⟨x, List.mem_cons_self _ _, h.symm⟩
      · exact Or.inr ⟨l, List.mem_cons_of_mem _ hl, hv⟩
    · simp only [hx, if_false]
      rcases ih m with h | ⟨l, hl, hv⟩
      · exact Or.inl h
      · exact Or.inr ⟨l, List.mem_cons_of_mem _ hl, hv⟩

theorem partsMinVal_le (d : Nat) (parts : List (List LevelVector)) (cur : Int) :
    partsMinVal d parts cur ≤ cur := by
  induction parts generalizing cur with
  | nil => exact le_refl _
  | cons p rest ih =>
    simp only [partsMinVal]
    split
    · exact le_trans (ih _) (by omega)
    · exact ih _

theorem partsMinVal_le_part (d : Nat) (parts : List (List LevelVector)) (cur : Int) :
    ∀ p ∈ parts, partsMinVal d parts cur ≤ dimMaxVal d p 0 := by
  induction parts generalizing cur with
  | nil => intro p hp; cases hp
  | cons x rest ih =>
    intro p hp
    simp only [partsMinVal]
    rcases List.mem_cons.mp hp with rfl | hp
    · refine le_trans (partsMinVal_le d rest _) ?_
      split <;> omega
    · exact ih _ p hp

theorem partsMinVal_attained (d : Nat) (parts : List (List LevelVector)) (cur : Int) :
    partsMinVal d parts cur = cur ∨ ∃ p ∈ parts, partsMinVal d parts cur = dimMaxVal d p 0 := by
  induction parts generalizing cur with
  | nil => exact Or.inl rfl
  | cons x rest ih =>
    simp only [partsMinVal]
    by_cases hx : dimMaxVal d x 0 < cur
    · simp only [hx, if_true]
      rcases ih (dimMaxVal d x 0) with h | ⟨p, hp, hv⟩
      · exact Or.inr ⟨x, List.mem_cons_self _ _, h⟩
      · exact Or.inr ⟨p, List.mem_cons_of_mem _ hp, hv⟩
    · simp only [hx, if_false]
      rcases ih cur with h | ⟨p, hp, hv⟩
      · exact Or.inl h
      · exact Or.inr ⟨p, List.mem_cons_of_mem _ hp, hv⟩

theorem getElem?_eq_some_getD (l : LevelVector) (d : Nat) (h : d < l.length) :
    l[d]? = some (l.getD d 0) := by
  simp [List.getD_eq_getElem?_getD, List.getElem?_eq_getElem h]

/-- For a non-empty part of levels of dimension above `d` with positive entries, the value
left in `dimMax` is the greatest `d`-th entry of the part. -/
theorem dimMaxVal_isGreatest (d : Nat) (part : List LevelVector) (hne : part ≠ [])
    (hlen : ∀ l ∈ part, d < l.length) (hpos : ∀ l ∈ part, ∀ v ∈ l, 0 < v) :
    IsGreatest {v | ∃ l ∈ part, l[d]? = some v} (dimMaxVal d part 0) := by
  constructor
  · rcases dimMaxVal_attained d part 0 with h0 | ⟨l, hl, hv⟩
    · exfalso
      obtain ⟨l, hl⟩ := List.exists_mem_of_ne_nil part hne
      have h1 := getD_le_dimMaxVal d part 0 l hl
      have h2 : 0 < l.getD d 0 :=
        hpos l hl _ (List.getElem?_mem (getElem?_eq_some_getD l d (hlen l hl)))
      omega
    · exact ⟨l, hl, by rw [← hv]; exact getElem?_eq_some_getD l d (hlen l hl)⟩
  · rintro v ⟨l, hl, hv⟩
    have h1 := getD_le_dimMaxVal d part 0 l hl
    rw [getElem?_eq_some_getD l d (hlen l hl)] at hv
    cases hv
    exact h1

/-- The run of `computeMaxLevel` on a scheme whose levels all have dimension `dim`. -/
theorem computeMaxLevel_eq (ds : List (List LevelVector)) (dim : Nat)
    (h0 : ∃ part0 level0, ds[0]? = some part0 ∧ part0[0]? = some level0)
    (hdim : ∀ part ∈ ds, ∀ l ∈ part, l.length = dim) :
    ∃ maxLevel, computeMaxLevel ds = .ok (dim, maxLevel) ∧ maxLevel.length = dim ∧
      ∀ d, d < dim → maxLevel.getD d 0 = partsMinVal d ds longMax := by
  obtain ⟨part0, level0, hp0, hl0⟩ := h0
  have hlen0 : level0.length = dim :=
    hdim part0 (List.getElem?_mem hp0) level0 (List.getElem?_mem hl0)
  obtain ⟨r, hr, hlen, hval⟩ := maxLevelLoop_eq ds (List.range dim)
    (List.replicate dim longMax) (List.nodup_range dim)
    (fun d hd => by simpa using hd)
    (fun d hd part hp l hl => by rw [hdim part hp l hl]; simpa using hd)
  refine ⟨r, ?_, by simpa using hlen, ?_⟩
  · simp only [computeMaxLevel, readAt, hp0, hl0, bind, Except.bind, hlen0, hr, pure,
      Except.pure]
  · intro d hd
    rw [hval d]
    simp [hd, List.getElem?_replicate]

theorem exceedsLoop_eq (ss level : LevelVector) (idxs : List Nat)
    (hs : ∀ d ∈ idxs, d < ss.length) (hl : ∀ d ∈ idxs, d < level.length) :
    ∃ b, exceedsLoop ss level idxs = .ok b ∧
      (b = true ↔ ∃ d ∈ idxs, level.getD d 0 < ss.getD d 0) := by
  induction idxs with
  | nil => exact ⟨false, rfl, by simp⟩
  | cons d rest ih =>
    obtain ⟨b, hb, hiff⟩ := ih (fun x hx => hs x (List.mem_cons_of_mem _ hx))
      (fun x hx => hl x (List.mem_cons_of_mem _ hx))
    have hsd := hs d (List.mem_cons_self _ _)
    have hld := hl d (List.mem_cons_self _ _)
    by_cases hgt : level.getD d 0 < ss.getD d 0
    · refine ⟨true, ?_, ?_⟩
      · simp only [exceedsLoop, readAt_int_of_lt ss d hsd, readAt_int_of_lt level d hld, bind,
          Except.bind, gt_iff_lt, hgt, if_true, pure, Except.pure]
      · simp only [true_iff]
        exact ⟨d, List.mem_cons_self _ _, hgt⟩
    · refine ⟨b, ?_, ?_⟩
      · simp only [exceedsLoop, readAt_int_of_lt ss d hsd, readAt_int_of_lt level d hld, bind,
          Except.bind, gt_iff_lt, hgt, if_false]
        exact hb
      · rw [hiff]
        constructor
        · rintro ⟨x, hx, hlt⟩
          exact ⟨x, List.mem_cons_of_mem _ hx, hlt⟩
        · rintro ⟨x, hx, hlt⟩
          rcases List.mem_cons.mp hx with rfl | hx
          · exact absurd hlt hgt
          · exact ⟨x, hx, hlt⟩

theorem notContainedLoop_eq (ss : LevelVector) (dim : Nat) (levels : List LevelVector)
    (hs : dim ≤ ss.length) (hl : ∀ l ∈ levels, dim ≤ l.length) (n : Nat) :
    ∃ m, notContainedLoop ss dim levels n = .ok m ∧ m ≤ n + levels.length ∧
      (m = n + levels.length ↔
        ∀ l ∈ levels, ∃ d, d < dim ∧ l.getD d 0 < ss.getD d 0) := by
  induction levels generalizing n with
  | nil => exact ⟨n, rfl, le_refl _, by simp⟩
  | cons l rest ih =>
    have hll := hl l (List.mem_cons_self _ _)
    obtain ⟨b, hb, hiff⟩ := exceedsLoop_eq ss l (List.range dim)
      (fun d hd => lt_of_lt_of_le (List.mem_range.mp hd) hs)
      (fun d hd => lt_of_lt_of_le (List.mem_range.mp hd) hll)
    obtain ⟨m, hm, hle, hmiff⟩ := ih (fun x hx => hl x (List.mem_cons_of_mem _ hx))
      (if b then n + 1 else n)
    refine ⟨m, ?_, ?_, ?_⟩
    · simp only [notContainedLoop, hb, bind, Except.bind]
      exact hm
    · simp only [List.length_cons]
      split at hle <;> omega
    · have hb2 : b = true ↔ ∃ d, d < dim ∧ l.getD d 0 < ss.getD d 0 := by
        rw [hiff]
        constructor
        · rintro ⟨d, hd, hlt⟩
          exact ⟨d, List.mem_range.mp hd, hlt⟩
        · rintro ⟨d, hd, hlt⟩
          exact ⟨d, List.mem_range.mpr hd, hlt⟩
      simp only [List.length_cons, List.forall_mem_cons, ← hb2, ← hmiff]
      cases b
      · simp only [Bool.false_eq_true, if_false] at hle ⊢
        constructor
        · intro h; omega
        · rintro ⟨h, _⟩; cases h
      · simp only [if_true] at hle ⊢
        constructor
        · intro h; exact ⟨trivial, by omega⟩
        · rintro ⟨_, h⟩; omega

theorem deleteLoop_eq (ss : LevelVector) (dim : Nat) (parts : List (List LevelVector))
    (hs : dim ≤ ss.length) (hl : ∀ part ∈ parts, ∀ l ∈ part, dim ≤ l.length) :
    ∃ b, deleteLoop ss dim parts = .ok b ∧
      (b = true ↔
        ∃ part ∈ parts, ∀ l ∈ part, ∃ d, d < dim ∧ l.getD d 0 < ss.getD d 0) := by
  induction parts with
  | nil => exact ⟨false, rfl, by simp⟩
  | cons part rest ih =>
    obtain ⟨b, hb, hiff⟩ := ih (fun x hx => hl x (List.mem_cons_of_mem _ hx))
    obtain ⟨m, hm, _, hmiff⟩ :=
      notContainedLoop_eq ss dim part hs (hl part (List.mem_cons_self _ _)) 0
    rw [Nat.zero_add] at hmiff
    by_cases hall : m = part.length
    · refine ⟨true, ?_, ?_⟩
      · simp only [deleteLoop, hm, bind, Except.bind, hall, beq_self_eq_true, if_true, pure,
          Except.pure]
      · simp only [true_iff]
        exact ⟨part, List.mem_cons_self _ _, hmiff.mp hall⟩
    · refine ⟨b, ?_, ?_⟩
      · have hne : (m == part.length) = false := by simpa using hall
        simp only [deleteLoop, hm, bind, Except.bind, hne, Bool.false_eq_true, if_false]
        exact hb
      · rw [hiff]
        constructor
        · rintro ⟨x, hx, h⟩
          exact ⟨x, List.mem_cons_of_mem _ hx, h⟩
        · rintro ⟨x, hx, h⟩
          rcases List.mem_cons.mp hx with rfl | hx
          · exact absurd (hmiff.mpr h) hall
          · exact ⟨x, hx, h⟩

theorem elementsToDeleteLoop_eq (ds : List (List LevelVector)) (dim : Nat)
    (cands : List LevelVector) (hl : ∀ part ∈ ds, ∀ l ∈ part, dim ≤ l.length)
    (hc : ∀ ss ∈ cands, dim ≤ ss.length) (acc : List LevelVector) :
    ∃ r, elementsToDeleteLoop ds dim cands acc = .ok r ∧
      ∀ ss, ss ∈ r ↔ ss ∈ acc ∨ (ss ∈ cands ∧
        ∃ part ∈ ds, ∀ l ∈ part, ∃ d, d < dim ∧ l.getD d 0 < ss.getD d 0) := by
  induction cands generalizing acc with
  | nil => exact ⟨acc, rfl, by simp⟩
  | cons c rest ih =>
    obtain ⟨b, hb, hiff⟩ := deleteLoop_eq c dim ds (hc c (List.mem_cons_self _ _)) hl
    obtain ⟨r, hr, hmem⟩ := ih (fun x hx => hc x (List.mem_cons_of_mem _ hx))
      (if b then acc ++ [c] else acc)
    refine ⟨r, ?_, ?_⟩
    · simp only [elementsToDeleteLoop, hb, bind, Except.bind]
      exact hr
    · intro ss
      rw [hmem ss]
      cases b
      · have hno : ¬ ∃ part ∈ ds, ∀ l ∈ part, ∃ d, d < dim ∧ l.getD d 0 < c.getD d 0 :=
          fun h => by simpa using hiff.mpr h
        simp only [Bool.false_eq_true, if_false, List.mem_cons]
        constructor
        · rintro (h | ⟨h1, h2⟩)
          · exact Or.inl h
          · exact Or.inr ⟨Or.inr h1, h2⟩
        · rintro (h | ⟨h1 | h1, h2⟩)
          · exact Or.inl h
          · exact absurd (h1 ▸ h2) hno
          · exact Or.inr ⟨h1, h2⟩
      · have hyes := hiff.mp rfl
        simp only [if_true, List.mem_append, List.mem_cons, List.not_mem_nil, or_false]
        constructor
        · rintro ((h | h) | ⟨h1, h2⟩)
          · exact Or.inl h
          · exact Or.inr ⟨Or.inl h, h ▸ hyes⟩
          · exact Or.inr ⟨Or.inr h1, h2⟩
        · rintro (h | ⟨h1 | h1, h2⟩)
          · exact Or.inl (Or.inl h)
          · exact Or.inl (Or.inr h1)
          · exact Or.inr ⟨h1, h2⟩

/-- The run of `computeCommonSubspaces` on a scheme whose levels all have dimension `dim`,
with a sparse grid that enumerates vectors of dimension `dim`: the result is the enumeration
without the elements to delete, in the order of the enumeration. -/
theorem computeCommonSubspaces_eq (sg : SGridLevels) (ds : List (List LevelVector))
    (boundary : List Bool) (dim : Nat)
    (h0 : ∃ part0 level0, ds[0]? = some part0 ∧ part0[0]? = some level0)
    (hdim : ∀ part ∈ ds, ∀ l ∈ part, l.length = dim)
    (hsg : ∀ M, computeMaxLevel ds = .ok (dim, M) → ∀ σ ∈ sg dim M M boundary,
      σ.length = dim) :
    ∃ (M : LevelVector) (del : List LevelVector), computeMaxLevel ds = .ok (dim, M) ∧
      computeCommonSubspaces sg ds boundary =
        .ok ((sg dim M M boundary).filter (fun ss => !del.contains ss)) ∧
      ∀ ss, ss ∈ del ↔ (ss ∈ sg dim M M boundary ∧
        ∃ part ∈ ds, ∀ l ∈ part, ∃ d, d < dim ∧ l.getD d 0 < ss.getD d 0) := by
  obtain ⟨M, hM, _, _⟩ := computeMaxLevel_eq ds dim h0 hdim
  obtain ⟨del, hdel, hmem⟩ := elementsToDeleteLoop_eq ds dim (sg dim M M boundary)
    (fun part hp l hl => le_of_eq (hdim part hp l hl).symm)
    (fun ss hss => le_of_eq (hsg M hM ss hss).symm) []
  refine ⟨M, del, hM, ?_, fun ss => by simpa using hmem ss⟩
  simp only [computeCommonSubspaces, hM, hdel, bind, Except.bind, pure, Except.pure]
  cases del with
  | nil => simp
  | cons a t => simp

theorem dominated_iff (dim : Nat) (σ l : LevelVector) (hσ : σ.length = dim)
    (hl : l.length = dim) :
    (¬ ∃ d, d < dim ∧ l.getD d 0 < σ.getD d 0) ↔
      ∀ d, d < dim → ∃ a b, σ[d]? = some a ∧ l[d]? = some b ∧ a ≤ b := by
  constructor
  · intro h d hd
    refine ⟨σ.getD d 0, l.getD d 0, getElem?_eq_some_getD σ d (by omega),
      getElem?_eq_some_getD l d (by omega), ?_⟩
    by_contra hlt
    exact h ⟨d, hd, lt_of_not_le hlt⟩
  · rintro h ⟨d, hd, hlt⟩
    obtain ⟨a, b, ha, hb, hab⟩ := h d hd
    rw [getElem?_eq_some_getD σ d (by omega)] at ha
    rw [getElem?_eq_some_getD l d (by omega)] at hb
    cases ha
    cases hb
    omega

/-- The run of `createThirdLevelScheme` with at least two systems on a scheme of at least
two levels, once the part lookups and `computeCommonSubspaces` are known to be defined. -/
theorem createThirdLevelScheme_eq (sg : SGridLevels) (levels : List LevelVector)
    (coeffs : List real) (cs0 : List LevelVector) (boundary : List Bool)
    (systemNumber numSystems : Nat) (hn : 2 ≤ levels.length) (hc : coeffs ≠ [])
    (hS : 2 ≤ numSystems) (lv : List LevelVector) (cf : List real)
    (common : List LevelVector)
    (hlv : [levels.take (levels.length / 2),
      levels.drop (levels.length / 2)][systemNumber]? = some lv)
    (hcf : [coeffs.take (coeffs.length / 2),
      coeffs.drop (coeffs.length / 2)][systemNumber]? = some cf)
    (hcommon : computeCommonSubspaces sg
      [levels.take (levels.length / 2), levels.drop (levels.length / 2)] boundary =
        .ok common) :
    createThirdLevelScheme sg levels coeffs cs0 boundary systemNumber numSystems =
      .ok (lv, cf, common) := by
  have hl : levels.isEmpty = false := by
    cases levels with
    | nil => simp at hn
    | cons a t => rfl
  have hce : coeffs.isEmpty = false := by
    cases coeffs with
    | nil => exact absurd rfl hc
    | cons a t => rfl
  have hS2 : ¬ numSystems < 2 := by omega
  have hdec := decomposeScheme_eq levels coeffs [] [] numSystems hn
  simp only [List.nil_append] at hdec
  simp only [createThirdLevelScheme, hl, hce, Bool.not_false, Bool.and_self, assertThat_true,
    hS2, if_false, hdec, readAt, hlv, hcf, hcommon, bind, Except.bind, pure, Except.pure]

/-- On a scheme of at least two levels of dimension `dim`, with a sparse grid that enumerates
vectors of dimension `dim`, `computeCommonSubspaces` is defined on the two halves. -/
theorem computeCommonSubspaces_halves (sg : SGridLevels) (levels : List LevelVector)
    (boundary : List Bool) (dim : Nat) (hn : 2 ≤ levels.length)
    (hdim : ∀ l ∈ levels, l.length = dim)
    (hsg : ∀ M, ∀ σ ∈ sg dim M M boundary, σ.length = dim) :
    ∃ common, computeCommonSubspaces sg
      [levels.take (levels.length / 2), levels.drop (levels.length / 2)] boundary =
        .ok common := by
  have h0 : ∃ part0 level0,
      [levels.take (levels.length / 2), levels.drop (levels.length / 2)][0]? = some part0 ∧
        part0[0]? = some level0 := by
    have hlen : 0 < (levels.take (levels.length / 2)).length := by
      rw [List.length_take]; omega
    exact ⟨_, _, rfl, List.getElem?_eq_getElem hlen⟩
  have hd : ∀ part ∈ [levels.take (levels.length / 2), levels.drop (levels.length / 2)],
      ∀ l ∈ part, l.length = dim := by
    intro part hp l hl
    rcases List.mem_cons.mp hp with rfl | hp
    · exact hdim l (List.mem_of_mem_take hl)
    · rcases List.mem_cons.mp hp with rfl | hp
      · exact hdim l (List.mem_of_mem_drop hl)
      · cases hp
  obtain ⟨M, del, _, hrun, _⟩ :=
    computeCommonSubspaces_eq sg _ boundary dim h0 hd (fun M _ => hsg M)
  exact ⟨_, hrun⟩

theorem foldl_mul_eq (f : ℚ → ℚ) (xs : List ℚ) (s : ℚ) :
    xs.foldl (fun result x => result * f x) s = s * (xs.map f).prod := by
  induction xs generalizing s with
  | nil => simp
  | cons x rest ih =>
    simp only [List.foldl_cons, List.map_cons, List.prod_cons, ih]
    ring

theorem exampleSGrid_length (dim : Nat) (nmax lmin : LevelVector) (boundary : List Bool) :
    ∀ σ ∈ exampleSGrid dim nmax lmin boundary, σ.length = dim := by
  have key : ∀ idxs : List Nat, ∀ σ ∈ idxs.foldr
      (fun d acc => (List.range (nmax.getD d 0).toNat).flatMap
        (fun k => acc.map (fun v => ((k : Int) + 1) :: v))) [[]],
      σ.length = idxs.length := by
    intro idxs
    induction idxs with
    | nil => intro σ hσ; simp at hσ; simp [hσ]
    | cons d rest ih =>
      intro σ hσ
      simp only [List.foldr_cons, List.mem_flatMap, List.mem_map] at hσ
      obtain ⟨k, _, v, hv, rfl⟩ := hσ
      simp [ih v hv]
  intro σ hσ
  simpa using key (List.range dim) σ hσ

/-! ### Runs of the process manager -/

theorem Traced.bind_eq {α β : Type} (x : Traced α) (f : α → Traced β) :
    (x >>= f) = x.andThen f := rfl

theorem Traced.pure_eq {α : Type} (a : α) : (pure a : Traced α) = ⟨[], .ok a⟩ := rfl

theorem Traced.andThen_ok {α β : Type} (x : Traced α) (f : α → Traced β) (a : α)
    (h : x.result = .ok a) : x.andThen f = ⟨x.trace ++ (f a).trace, (f a).result⟩ := by
  simp only [Traced.andThen, h]

theorem Traced.andThen_error {α β : Type} (x : Traced α) (f : α → Traced β) (e : Stop)
    (h : x.result = .error e) : x.andThen f = ⟨x.trace, .error e⟩ := by
  simp only [Traced.andThen, h]

theorem Traced.mk_ok_andThen {α β : Type} (tr : List Event) (a : α) (f : α → Traced β) :
    (Traced.mk tr (.ok a)).andThen f = ⟨tr ++ (f a).trace, (f a).result⟩ := rfl

theorem Traced.mk_error_andThen {α β : Type} (tr : List Event) (e : Stop) (f : α → Traced β) :
    (Traced.mk tr (.error e) : Traced α).andThen f = ⟨tr, .error e⟩ := rfl

theorem call_andThen {β : Type} (e : Event) (f : Unit → Traced β) :
    (call e).andThen f = ⟨e :: (f ()).trace, (f ()).result⟩ := rfl

theorem check_true_andThen {β : Type} (f : Unit → Traced β) :
    (check true).andThen f = f () := rfl

theorem check_false_andThen {β : Type} (f : Unit → Traced β) :
    (check false).andThen f = ⟨[], .error (.failure .assertion)⟩ := rfl

/-- One counting sweep makes one `getStatus` call for each index and adds the number of
groups that answer WAIT. -/
theorem countWaitingLoop_eq (env : ManagerEnv) (t : Nat) (idxs : List Nat) (nw : Nat) :
    countWaitingLoop env t idxs nw =
      ⟨idxs.map (fun i => Event.getStatus i (env.getStatus t i)),
        .ok (nw + idxs.countP (fun i => decide (env.getStatus t i = .PROCESS_GROUP_WAIT)))⟩ := by
  induction idxs generalizing nw with
  | nil => rfl
  | cons i rest ih =>
    simp only [countWaitingLoop, Traced.bind_eq, call_andThen, ih, List.map_cons,
      List.countP_cons]
    by_cases h : env.getStatus t i = .PROCESS_GROUP_WAIT
    · simp only [h, if_true, decide_True, Nat.add_assoc, Nat.add_comm 1]
    · simp only [h, if_false, decide_False, Bool.false_eq_true, Nat.add_zero]

theorem countP_range_eq_iff (env : ManagerEnv) (t : Nat) :
    (List.range env.numGroups).countP
        (fun i => decide (env.getStatus t i = .PROCESS_GROUP_WAIT)) = env.numGroups ↔
      AllWaiting env t := by
  have h := List.countP_eq_length
    (p := fun i => decide (env.getStatus t i = StatusType.PROCESS_GROUP_WAIT))
    (l := List.range env.numGroups)
  rw [List.length_range] at h
  rw [h]
  simp only [List.mem_range, decide_eq_true_eq, AllWaiting]

theorem mem_sweepTrace (env : ManagerEnv) (t : Nat) (e : Event) (h : e ∈ sweepTrace env t) :
    ∃ i s, e = .getStatus i s := by
  simp only [sweepTrace, List.mem_map] at h
  obtain ⟨i, _, rfl⟩ := h
  exact ⟨i, _, rfl⟩

theorem mem_flatMap_sweepTrace (env : ManagerEnv) (ts : List Nat) (e : Event)
    (h : e ∈ ts.flatMap (sweepTrace env)) : ∃ i s, e = .getStatus i s := by
  obtain ⟨t, _, ht⟩ := List.mem_flatMap.mp h
  exact mem_sweepTrace env t e ht

/-- The three ways in which the polling loop can run: not entered, left after a first sweep
in which all groups wait, or still polling after `fuel` sweeps none of which found all
groups waiting. -/
theorem waitAllWaitingLoop_spec (env : ManagerEnv) (fuel t nw : Nat) :
    (nw = env.numGroups ∧ waitAllWaitingLoop env fuel t nw = ⟨[], .ok ()⟩) ∨
    (nw ≠ env.numGroups ∧ ∃ k, k < fuel ∧ AllWaiting env (t + k) ∧
      (∀ j, j < k → ¬ AllWaiting env (t + j)) ∧
      waitAllWaitingLoop env fuel t nw =
        ⟨(List.range' t k).flatMap (sweepTrace env) ++ sweepTrace env (t + k), .ok ()⟩) ∨
    (nw ≠ env.numGroups ∧ (∀ j, j < fuel → ¬ AllWaiting env (t + j)) ∧
      waitAllWaitingLoop env fuel t nw =
        ⟨(List.range' t fuel).flatMap (sweepTrace env), .error .polling⟩) := by
  induction fuel generalizing t nw with
  | zero =>
    by_cases h : nw = env.numGroups
    · exact Or.inl ⟨h, by simp [waitAllWaitingLoop, h, Traced.pure_eq]⟩
    · refine Or.inr (Or.inr ⟨h, fun j hj => absurd hj (Nat.not_lt_zero j), ?_⟩)
      simp [waitAllWaitingLoop, h]
  | succ fuel ih =>
    by_cases h : nw = env.numGroups
    · exact Or.inl ⟨h, by simp [waitAllWaitingLoop, h, Traced.pure_eq]⟩
    · have hstep : waitAllWaitingLoop env (fuel + 1) t nw =
          ⟨sweepTrace env t ++ (waitAllWaitingLoop env fuel (t + 1)
              ((List.range env.numGroups).countP
                (fun i => decide (env.getStatus t i = .PROCESS_GROUP_WAIT)))).trace,
            (waitAllWaitingLoop env fuel (t + 1)
              ((List.range env.numGroups).countP
                (fun i => decide (env.getStatus t i = .PROCESS_GROUP_WAIT)))).result⟩ := by
        simp only [waitAllWaitingLoop, bne_iff_ne, ne_eq, h, not_false_eq_true, if_true,
          Traced.bind_eq, countWaitingLoop_eq, Nat.zero_add]
        rfl
      rcases ih (t + 1) ((List.range env.numGroups).countP
          (fun i => decide (env.getStatus t i = .PROCESS_GROUP_WAIT))) with
        ⟨hc, hr⟩ | ⟨hc, k, hk, hall, hmin, hr⟩ | ⟨hc, hnone, hr⟩
      · refine Or.inr (Or.inl ⟨h, 0, Nat.succ_pos _, ?_, fun j hj => absurd hj (Nat.not_lt_zero j),
          ?_⟩)
        · exact (countP_range_eq_iff env t).mp hc
        · rw [hstep, hr]
          simp
      · refine Or.inr (Or.inl ⟨h, k + 1, Nat.succ_lt_succ hk, ?_, ?_, ?_⟩)
        · have e : t + (k + 1) = t + 1 + k := by omega
          rw [e]; exact hall
        · intro j hj
          cases j with
          | zero => exact fun hw => hc ((countP_range_eq_iff env t).mpr hw)
          | succ j =>
            have e : t + (j + 1) = t + 1 + j := by omega
            rw [e]; exact hmin j (by omega)
        · rw [hstep, hr]
          have e : t + (k + 1) = t + 1 + k := by omega
          simp only [List.range'_succ, List.flatMap_cons, List.append_assoc, e]
      · refine Or.inr (Or.inr ⟨h, ?_, ?_⟩)
        · intro j hj
          cases j with
          | zero => exact fun hw => hc ((countP_range_eq_iff env t).mpr hw)
          | succ j =>
            have e : t + (j + 1) = t + 1 + j := by omega
            rw [e]; exact hnone j (by omega)
        · rw [hstep, hr]
          simp only [List.range'_succ, List.flatMap_cons]

/-- The two ways in which a signal loop can run: every group accepts and gets the signal
once, in order; or the loop is aborted at the first group that does not accept. -/
theorem signalLoop_spec (send : Nat → Event) (success : Nat → Bool) (idxs : List Nat) :
    ((∀ i ∈ idxs, success i = true) ∧
      signalLoop send success idxs = ⟨idxs.map send, .ok ()⟩) ∨
    (∃ k, k < idxs.length ∧
      signalLoop send success idxs =
        ⟨(idxs.take (k + 1)).map send, .error (.failure .assertion)⟩) := by
  induction idxs with
  | nil => exact Or.inl ⟨fun i hi => absurd hi (List.not_mem_nil i), rfl⟩
  | cons i rest ih =>
    cases hs : success i with
    | false =>
      refine Or.inr ⟨0, by simp, ?_⟩
      simp only [signalLoop, Traced.bind_eq, call_andThen, hs, check_false_andThen]
      rfl
    | true =>
      have hstep : signalLoop send success (i :: rest) =
          ⟨send i :: (signalLoop send success rest).trace,
            (signalLoop send success rest).result⟩ := by
        simp only [signalLoop, Traced.bind_eq, call_andThen, hs, check_true_andThen]
      rcases ih with ⟨hall, hr⟩ | ⟨k, hk, hr⟩
      · refine Or.inl ⟨?_, ?_⟩
        · intro j hj
          rcases List.mem_cons.mp hj with rfl | hj
          · exact hs
          · exact hall j hj
        · rw [hstep, hr]; rfl
      · refine Or.inr ⟨k + 1, by simpa using hk, ?_⟩
        rw [hstep, hr]; rfl

theorem resizeCommonSubspaces_of_nonneg (buffSize : Int) (h : 0 ≤ buffSize) :
    resizeCommonSubspaces buffSize = ⟨[], .ok (buffSize % 2 ^ 64).toNat⟩ := by
  simp only [resizeCommonSubspaces, not_lt.mpr h, if_false, Traced.pure_eq]

theorem resizeCommonSubspaces_of_neg (buffSize : Int) (h : buffSize < 0) :
    resizeCommonSubspaces buffSize = ⟨[], .error (.failure .lengthError)⟩ := by
  simp only [resizeCommonSubspaces, h, if_true]

/-- The run of the gather: the signal to the third level reduce group, when the group
accepts it the gather of the part sizes, and when the buffer size is not negative the
gather of the parts. -/
theorem gather_eq (env : ManagerEnv) :
    (env.gatherCommonSubspacesSuccess = true ∧ 0 ≤ accumulateInt env.commonSSPartsSizes ∧
      ∃ size, gatherCommonSubSpacesFromThirdLevelReducePG env =
        ⟨[.gatherCommonSubspaces, .MPI_Gather,
          .MPI_Gatherv env.commonSSPartsSizes (gatherDispl env)], .ok size⟩) ∨
    (env.gatherCommonSubspacesSuccess = true ∧ accumulateInt env.commonSSPartsSizes < 0 ∧
      gatherCommonSubSpacesFromThirdLevelReducePG env =
        ⟨[.gatherCommonSubspaces, .MPI_Gather], .error (.failure .lengthError)⟩) ∨
    (env.gatherCommonSubspacesSuccess = false ∧
      gatherCommonSubSpacesFromThirdLevelReducePG env =
        ⟨[.gatherCommonSubspaces], .error (.failure .assertion)⟩) := by
  cases h : env.gatherCommonSubspacesSuccess with
  | false =>
    refine Or.inr (Or.inr ⟨rfl, ?_⟩)
    simp only [gatherCommonSubSpacesFromThirdLevelReducePG, Traced.bind_eq, call_andThen, h,
      check_false_andThen]
  | true =>
    by_cases hs : 0 ≤ accumulateInt env.commonSSPartsSizes
    · refine Or.inl ⟨rfl, hs, (accumulateInt env.commonSSPartsSizes % 2 ^ 64).toNat, ?_⟩
      simp only [gatherCommonSubSpacesFromThirdLevelReducePG, Traced.bind_eq, call_andThen, h,
        check_true_andThen, resizeCommonSubspaces_of_nonneg _ hs, Traced.mk_ok_andThen,
        Traced.pure_eq, gatherDispl, List.nil_append]
    · refine Or.inr (Or.inl ⟨rfl, not_le.mp hs, ?_⟩)
      simp only [gatherCommonSubSpacesFromThirdLevelReducePG, Traced.bind_eq, call_andThen, h,
        check_true_andThen, resizeCommonSubspaces_of_neg _ (not_le.mp hs),
        Traced.mk_error_andThen, List.nil_append]

theorem waitAllWaitingLoop_trace (env : ManagerEnv) (fuel t nw : Nat) :
    ∀ e ∈ (waitAllWaitingLoop env fuel t nw).trace, ∃ i s, e = .getStatus i s := by
  intro e he
  rcases waitAllWaitingLoop_spec env fuel t nw with
    ⟨_, hr⟩ | ⟨_, k, _, _, _, hr⟩ | ⟨_, _, hr⟩
  · rw [hr] at he; cases he
  · rw [hr] at he
    rcases List.mem_append.mp he with h | h
    · exact mem_flatMap_sweepTrace env _ e h
    · exact mem_sweepTrace env _ e h
  · rw [hr] at he
    exact mem_flatMap_sweepTrace env _ e he

theorem waitAllWaitingLoop_result (env : ManagerEnv) (fuel t nw : Nat) :
    (waitAllWaitingLoop env fuel t nw).result = .ok () ∨
      (waitAllWaitingLoop env fuel t nw).result = .error .polling := by
  rcases waitAllWaitingLoop_spec env fuel t nw with
    ⟨_, hr⟩ | ⟨_, k, _, _, _, hr⟩ | ⟨_, _, hr⟩ <;> rw [hr] <;> simp

theorem waitAllWaitingLoop_ok (env : ManagerEnv) (fuel nw : Nat)
    (h : ∃ T, T < fuel ∧ AllWaiting env T) :
    (waitAllWaitingLoop env fuel 0 nw).result = .ok () := by
  rcases waitAllWaitingLoop_spec env fuel 0 nw with
    ⟨_, hr⟩ | ⟨_, k, _, _, _, hr⟩ | ⟨_, hnone, _⟩
  · rw [hr]
  · rw [hr]
  · obtain ⟨T, hT, hall⟩ := h
    exact absurd (by simpa using hall) (hnone T hT)

/-- A polling loop that is left either was not entered or ends with a sweep in which every
group answered WAIT. -/
theorem waitAllWaitingLoop_ok_sweep (env : ManagerEnv) (fuel t nw : Nat)
    (h : (waitAllWaitingLoop env fuel t nw).result = .ok ()) :
    (nw = env.numGroups ∧ (waitAllWaitingLoop env fuel t nw).trace = []) ∨
    (nw ≠ env.numGroups ∧ ∃ T before, AllWaiting env T ∧
      (waitAllWaitingLoop env fuel t nw).trace = before ++ sweepTrace env T) := by
  rcases waitAllWaitingLoop_spec env fuel t nw with
    ⟨hn, hr⟩ | ⟨hn, k, _, hall, _, hr⟩ | ⟨_, _, hr⟩
  · exact Or.inl ⟨hn, by rw [hr]⟩
  · exact Or.inr ⟨hn, t + k, _, hall, by rw [hr]⟩
  · rw [hr] at h; cases h

theorem signalLoop_ok (send : Nat → Event) (success : Nat → Bool) (idxs : List Nat)
    (h : ∀ i ∈ idxs, success i = true) :
    signalLoop send success idxs = ⟨idxs.map send, .ok ()⟩ := by
  induction idxs with
  | nil => rfl
  | cons i rest ih =>
    have hs : success i = true := h i (List.mem_cons_self _ _)
    simp only [signalLoop, Traced.bind_eq, call_andThen, hs, check_true_andThen,
      ih (fun j hj => h j (List.mem_cons_of_mem _ hj)), List.map_cons]

theorem signalLoop_trace_of_ok (send : Nat → Event) (success : Nat → Bool) (idxs : List Nat)
    (h : (signalLoop send success idxs).result = .ok ()) :
    (signalLoop send success idxs).trace = idxs.map send := by
  rcases signalLoop_spec send success idxs with ⟨_, hr⟩ | ⟨k, _, hr⟩
  · rw [hr]
  · rw [hr] at h; cases h

theorem signalLoop_result (send : Nat → Event) (success : Nat → Bool) (idxs : List Nat) :
    (signalLoop send success idxs).result = .ok () ∨
      (signalLoop send success idxs).result = .error (.failure .assertion) := by
  rcases signalLoop_spec send success idxs with ⟨_, hr⟩ | ⟨k, _, hr⟩ <;> rw [hr] <;> simp

theorem signalLoop_trace_mem (send : Nat → Event) (success : Nat → Bool) (idxs : List Nat) :
    ∀ e ∈ (signalLoop send success idxs).trace, ∃ i, i ∈ idxs ∧ e = send i := by
  intro e he
  rcases signalLoop_spec send success idxs with ⟨_, hr⟩ | ⟨k, _, hr⟩
  · rw [hr] at he
    obtain ⟨i, hi, rfl⟩ := List.mem_map.mp he
    exact ⟨i, hi, rfl⟩
  · rw [hr] at he
    obtain ⟨i, hi, rfl⟩ := List.mem_map.mp he
    exact ⟨i, List.mem_of_mem_take hi, rfl⟩

/-- The runs of the first part of `combineThirdLevel`: either it gets to the instruction,
after the polls, one signal for each group in order, `waitAllFinished`, the READY signal and
the fetch; or it stops before, with nothing but polls and signals to groups made. -/
theorem combineThirdLevelPreamble_cases (env : ManagerEnv) (fuel : Nat) :
    (∃ polls, (∀ e ∈ polls, ∃ i s, e = Event.getStatus i s) ∧
      combineThirdLevelPreamble env fuel =
        ⟨polls ++ (List.range env.numGroups).map Event.combineLocalAndGlobal ++
          [.waitAllFinished, .signalReady, .fetchInstruction env.instruction],
          .ok env.instruction⟩) ∨
    ((∃ stop, (combineThirdLevelPreamble env fuel).result = .error stop) ∧
      ∀ e ∈ (combineThirdLevelPreamble env fuel).trace,
        (∃ i s, e = Event.getStatus i s) ∨ ∃ i, e = Event.combineLocalAndGlobal i) := by
  cases hm : env.isThirdLevelReduceManager with
  | false =>
    refine Or.inr ?_
    have hr : combineThirdLevelPreamble env fuel = ⟨[], .error (.failure .assertion)⟩ := by
      simp only [combineThirdLevelPreamble, Traced.bind_eq, hm, check_false_andThen]
    rw [hr]
    exact ⟨⟨_, rfl⟩, fun e he => absurd he (List.not_mem_nil e)⟩
  | true =>
    have hP := waitAllWaitingLoop_trace env fuel 0 0
    rcases waitAllWaitingLoop_result env fuel 0 0 with hpr | hpr
    · have hS := signalLoop_trace_mem Event.combineLocalAndGlobal
        env.combineLocalAndGlobalSuccess (List.range env.numGroups)
      rcases signalLoop_result Event.combineLocalAndGlobal env.combineLocalAndGlobalSuccess
          (List.range env.numGroups) with hsr | hsr
      · refine Or.inl ⟨(waitAllWaitingLoop env fuel 0 0).trace, hP, ?_⟩
        have hst := signalLoop_trace_of_ok _ _ _ hsr
        simp only [combineThirdLevelPreamble, Traced.bind_eq, hm, check_true_andThen,
          Traced.andThen_ok _ _ () hpr, Traced.andThen_ok _ _ () hsr, call_andThen,
          Traced.pure_eq, hst, List.append_assoc]
      · refine Or.inr ?_
        have hr : combineThirdLevelPreamble env fuel =
            ⟨(waitAllWaitingLoop env fuel 0 0).trace ++
              (signalLoop Event.combineLocalAndGlobal env.combineLocalAndGlobalSuccess
                (List.range env.numGroups)).trace, .error (.failure .assertion)⟩ := by
          simp only [combineThirdLevelPreamble, Traced.bind_eq, hm, check_true_andThen,
            Traced.andThen_ok _ _ () hpr, Traced.andThen_error _ _ _ hsr]
        rw [hr]
        refine ⟨⟨_, rfl⟩, fun e he => ?_⟩
        rcases List.mem_append.mp he with h | h
        · exact Or.inl (hP e h)
        · obtain ⟨i, _, rfl⟩ := hS e h
          exact Or.inr ⟨i, rfl⟩
    · refine Or.inr ?_
      have hr : combineThirdLevelPreamble env fuel =
          ⟨(waitAllWaitingLoop env fuel 0 0).trace, .error .polling⟩ := by
        simp only [combineThirdLevelPreamble, Traced.bind_eq, hm, check_true_andThen,
          Traced.andThen_error _ _ _ hpr]
      rw [hr]
      exact ⟨⟨_, rfl⟩, fun e he => Or.inl (hP e he)⟩

/-- Under the conditions of `ReachesInstruction` the first part of `combineThirdLevel`
returns with the instruction. -/
theorem combineThirdLevelPreamble_ok (env : ManagerEnv) (fuel : Nat)
    (h : ReachesInstruction env fuel) :
    (combineThirdLevelPreamble env fuel).result = .ok env.instruction := by
  obtain ⟨hm, hpoll, hsucc⟩ := h
  have hpr := waitAllWaitingLoop_ok env fuel 0 hpoll
  have hsr := signalLoop_ok Event.combineLocalAndGlobal env.combineLocalAndGlobalSuccess
    (List.range env.numGroups) (fun i hi => hsucc i (List.mem_range.mp hi))
  have hst : (signalLoop Event.combineLocalAndGlobal env.combineLocalAndGlobalSuccess
      (List.range env.numGroups)).result = .ok () := by rw [hsr]
  simp only [combineThirdLevelPreamble, Traced.bind_eq, hm, check_true_andThen,
    Traced.andThen_ok _ _ () hpr, Traced.andThen_ok _ _ () hst, call_andThen, Traced.pure_eq]

/-- The exchange for "sendSubspaces": all seven calls when the third level reduce group
accepts the gather signal and the buffer size is not negative, an abort in `resize` after
the gather of the part sizes when the buffer size is negative, and an abort after the
gather signal when the group does not accept it. -/
theorem exchange_sendSubspaces (env : ManagerEnv) :
    (env.gatherCommonSubspacesSuccess = true ∧ 0 ≤ accumulateInt env.commonSSPartsSizes ∧
      combineThirdLevelExchange env "sendSubspaces" = ⟨sendSubspacesCalls env, .ok ()⟩) ∨
    (env.gatherCommonSubspacesSuccess = true ∧ accumulateInt env.commonSSPartsSizes < 0 ∧
      combineThirdLevelExchange env "sendSubspaces" =
        ⟨[.gatherCommonSubspaces, .MPI_Gather], .error (.failure .lengthError)⟩) ∨
    (env.gatherCommonSubspacesSuccess = false ∧
      combineThirdLevelExchange env "sendSubspaces" =
        ⟨[.gatherCommonSubspaces], .error (.failure .assertion)⟩) := by
  rcases gather_eq env with ⟨hg, hs, size, hr⟩ | ⟨hg, hs, hr⟩ | ⟨hg, hr⟩
  · refine Or.inl ⟨hg, hs, ?_⟩
    simp only [combineThirdLevelExchange, if_true, Traced.bind_eq, hr,
      Traced.mk_ok_andThen, call_andThen, Traced.pure_eq, call, sendSubspacesCalls]
    rfl
  · refine Or.inr (Or.inl ⟨hg, hs, ?_⟩)
    simp only [combineThirdLevelExchange, if_true, Traced.bind_eq, hr,
      Traced.mk_error_andThen]
  · refine Or.inr (Or.inr ⟨hg, ?_⟩)
    simp only [combineThirdLevelExchange, if_true, Traced.bind_eq, hr,
      Traced.mk_error_andThen]

/-- The exchange for "receiveSubspaces": all six calls when the third level reduce group
accepts the gather signal and the buffer size is not negative, an abort in `resize` after
the gather of the part sizes when the buffer size is negative, and an abort after the
gather signal when the group does not accept it. -/
theorem exchange_receiveSubspaces (env : ManagerEnv) :
    (env.gatherCommonSubspacesSuccess = true ∧ 0 ≤ accumulateInt env.commonSSPartsSizes ∧
      combineThirdLevelExchange env "receiveSubspaces" =
        ⟨receiveSubspacesCalls env, .ok ()⟩) ∨
    (env.gatherCommonSubspacesSuccess = true ∧ accumulateInt env.commonSSPartsSizes < 0 ∧
      combineThirdLevelExchange env "receiveSubspaces" =
        ⟨[.receiveCommonSubspaces, .combineRemoteAndLocalSubspaces, .gatherCommonSubspaces,
          .MPI_Gather], .error (.failure .lengthError)⟩) ∨
    (env.gatherCommonSubspacesSuccess = false ∧
      combineThirdLevelExchange env "receiveSubspaces" =
        ⟨[.receiveCommonSubspaces, .combineRemoteAndLocalSubspaces, .gatherCommonSubspaces],
          .error (.failure .assertion)⟩) := by
  have hne : ¬ ("receiveSubspaces" = "sendSubspaces") := by decide
  rcases gather_eq env with ⟨hg, hs, size, hr⟩ | ⟨hg, hs, hr⟩ | ⟨hg, hr⟩
  · refine Or.inl ⟨hg, hs, ?_⟩
    simp only [combineThirdLevelExchange, hne, if_false, if_true, Traced.bind_eq, hr,
      Traced.mk_ok_andThen, call_andThen, Traced.pure_eq, call,
      receiveSubspacesCalls]
    rfl
  · refine Or.inr (Or.inl ⟨hg, hs, ?_⟩)
    simp only [combineThirdLevelExchange, hne, if_false, if_true, Traced.bind_eq, hr,
      Traced.mk_error_andThen, call_andThen]
  · refine Or.inr (Or.inr ⟨hg, ?_⟩)
    simp only [combineThirdLevelExchange, hne, if_false, if_true, Traced.bind_eq, hr,
      Traced.mk_error_andThen, call_andThen]

/-- Any other instruction: no call at all. -/
theorem exchange_other (env : ManagerEnv) (instruction : String)
    (h1 : instruction ≠ "sendSubspaces") (h2 : instruction ≠ "receiveSubspaces") :
    combineThirdLevelExchange env instruction = ⟨[], .ok ()⟩ := by
  simp only [combineThirdLevelExchange, h1, h2, if_false, Traced.pure_eq]

theorem exchange_transfer_only (env : ManagerEnv) (instruction : String) :
    ∀ e ∈ (combineThirdLevelExchange env instruction).trace, e.isSubspaceTransfer = true := by
  intro e he
  by_cases h1 : instruction = "sendSubspaces"
  · subst h1
    rcases exchange_sendSubspaces env with ⟨_, _, hr⟩ | ⟨_, _, hr⟩ | ⟨_, hr⟩
    · rw [hr] at he
      simp only [sendSubspacesCalls, List.mem_cons, List.mem_singleton, List.not_mem_nil,
        or_false] at he
      rcases he with rfl | rfl | rfl | rfl | rfl | rfl | rfl <;> rfl
    · rw [hr] at he
      simp only [List.mem_cons, List.mem_singleton, List.not_mem_nil, or_false] at he
      rcases he with rfl | rfl <;> rfl
    · rw [hr] at he
      simp only [List.mem_singleton] at he
      subst he; rfl
  · by_cases h2 : instruction = "receiveSubspaces"
    · subst h2
      rcases exchange_receiveSubspaces env with ⟨_, _, hr⟩ | ⟨_, _, hr⟩ | ⟨_, hr⟩
      · rw [hr] at he
        simp only [receiveSubspacesCalls, List.mem_cons, List.mem_singleton, List.not_mem_nil,
          or_false] at he
        rcases he with rfl | rfl | rfl | rfl | rfl | rfl <;> rfl
      · rw [hr] at he
        simp only [List.mem_cons, List.mem_singleton, List.not_mem_nil, or_false] at he
        rcases he with rfl | rfl | rfl | rfl <;> rfl
      · rw [hr] at he
        simp only [List.mem_cons, List.mem_singleton, List.not_mem_nil, or_false] at he
        rcases he with rfl | rfl | rfl <;> rfl
    · rw [exchange_other env instruction h1 h2] at he
      cases he

/-- The runs of `combineThirdLevel`: the calls before the exchange followed by the calls of
the exchange, or a stop before the instruction. -/
theorem combineThirdLevel_cases (env : ManagerEnv) (fuel : Nat) :
    (∃ polls, (∀ e ∈ polls, ∃ i s, e = Event.getStatus i s) ∧
      combineThirdLevel env fuel =
        ⟨(polls ++ (List.range env.numGroups).map Event.combineLocalAndGlobal ++
          [.waitAllFinished, .signalReady, .fetchInstruction env.instruction]) ++
          (combineThirdLevelExchange env env.instruction).trace,
          (combineThirdLevelExchange env env.instruction).result⟩) ∨
    ((∃ stop, (combineThirdLevel env fuel).result = .error stop) ∧
      ¬ ReachesInstruction env fuel ∧
      ∀ e ∈ (combineThirdLevel env fuel).trace,
        (∃ i s, e = Event.getStatus i s) ∨ ∃ i, e = Event.combineLocalAndGlobal i) := by
  rcases combineThirdLevelPreamble_cases env fuel with ⟨polls, hp, hr⟩ | ⟨⟨stop, hs⟩, hm⟩
  · refine Or.inl ⟨polls, hp, ?_⟩
    simp only [combineThirdLevel, Traced.bind_eq, hr, Traced.mk_ok_andThen]
  · refine Or.inr ?_
    have hr : combineThirdLevel env fuel =
        ⟨(combineThirdLevelPreamble env fuel).trace, .error stop⟩ := by
      simp only [combineThirdLevel, Traced.bind_eq, Traced.andThen_error _ _ stop hs]
    rw [hr]
    refine ⟨⟨stop, rfl⟩, ?_, hm⟩
    intro hreach
    rw [combineThirdLevelPreamble_ok env fuel hreach] at hs
    cases hs

theorem not_transfer_of_preamble (polls : List Event) (n : Nat) (instruction : String)
    (hp : ∀ e ∈ polls, ∃ i s, e = Event.getStatus i s) :
    ∀ e ∈ polls ++ (List.range n).map Event.combineLocalAndGlobal ++
        [.waitAllFinished, .signalReady, .fetchInstruction instruction],
      e.isSubspaceTransfer = false := by
  intro e he
  simp only [List.mem_append, List.mem_map, List.mem_cons, List.mem_singleton,
    List.not_mem_nil, or_false] at he
  rcases he with (h | ⟨i, _, rfl⟩) | rfl | rfl | rfl
  · obtain ⟨i, s, rfl⟩ := hp e h
    rfl
  all_goals rfl

theorem not_transfer_of_stopped (tr : List Event)
    (h : ∀ e ∈ tr, (∃ i s, e = Event.getStatus i s) ∨ ∃ i, e = Event.combineLocalAndGlobal i) :
    ∀ e ∈ tr, e.isSubspaceTransfer = false := by
  intro e he
  rcases h e he with ⟨i, s, rfl⟩ | ⟨i, rfl⟩ <;> rfl

/-- One sweep of `wait` over the indices `s, s + 1, ..., s + m - 1`: it returns the lowest
index whose group answers WAIT, or nothing when no group does. -/
theorem waitSweepLoop_range' (env : ManagerEnv) (t s m : Nat) :
    (∃ i, s ≤ i ∧ i < s + m ∧ env.getStatus t i = .PROCESS_GROUP_WAIT ∧
      (∀ j, s ≤ j → j < i → env.getStatus t j ≠ .PROCESS_GROUP_WAIT) ∧
      (waitSweepLoop env t (List.range' s m)).result = .ok (some i)) ∨
    ((∀ j, s ≤ j → j < s + m → env.getStatus t j ≠ .PROCESS_GROUP_WAIT) ∧
      (waitSweepLoop env t (List.range' s m)).result = .ok none) := by
  induction m generalizing s with
  | zero =>
    refine Or.inr ⟨fun j h1 h2 => by omega, rfl⟩
  | succ m ih =>
    by_cases hw : env.getStatus t s = .PROCESS_GROUP_WAIT
    · refine Or.inl ⟨s, le_refl _, by omega, hw, fun j h1 h2 => by omega, ?_⟩
      simp only [List.range'_succ, waitSweepLoop, Traced.bind_eq, call_andThen, hw, if_true,
        Traced.pure_eq]
    · have hstep : (waitSweepLoop env t (List.range' s (m + 1))).result =
          (waitSweepLoop env t (List.range' (s + 1) m)).result := by
        simp only [List.range'_succ, waitSweepLoop, Traced.bind_eq, call_andThen, hw, if_false]
      rcases ih (s + 1) with ⟨i, h1, h2, h3, h4, h5⟩ | ⟨h1, h2⟩
      · refine Or.inl ⟨i, by omega, by omega, h3, ?_, by rw [hstep, h5]⟩
        intro j hj1 hj2
        by_cases hjs : j = s
        · rw [hjs]; exact hw
        · exact h4 j (by omega) hj2
      · refine Or.inr ⟨?_, by rw [hstep, h2]⟩
        intro j hj1 hj2
        by_cases hjs : j = s
        · rw [hjs]; exact hw
        · exact h1 j (by omega) (by omega)

theorem waitSweepLoop_range (env : ManagerEnv) (t : Nat) :
    (∃ i, i < env.numGroups ∧ env.getStatus t i = .PROCESS_GROUP_WAIT ∧
      (∀ j, j < i → env.getStatus t j ≠ .PROCESS_GROUP_WAIT) ∧
      (waitSweepLoop env t (List.range env.numGroups)).result = .ok (some i)) ∨
    ((∀ j, j < env.numGroups → env.getStatus t j ≠ .PROCESS_GROUP_WAIT) ∧
      (waitSweepLoop env t (List.range env.numGroups)).result = .ok none) := by
  rw [List.range_eq_range']
  rcases waitSweepLoop_range' env t 0 env.numGroups with ⟨i, _, h2, h3, h4, h5⟩ | ⟨h1, h2⟩
  · exact Or.inl ⟨i, by omega, h3, fun j hj => h4 j (Nat.zero_le j) hj, h5⟩
  · exact Or.inr ⟨fun j hj => h1 j (Nat.zero_le j) (by omega), h2⟩

theorem wait_succ (env : ManagerEnv) (fuel t : Nat) :
    wait env (fuel + 1) t =
      (waitSweepLoop env t (List.range env.numGroups)).andThen (fun r =>
        match r with
        | some i => pure i
        | none => wait env fuel (t + 1)) := rfl

/-! ### Lemmas on the configuration, the tasks and the scheme functions -/

theorem halves_nonempty_iff (fullScheme : List LevelVector) :
    (!(fullScheme.take (fullScheme.length / 2)).isEmpty &&
      !(fullScheme.drop (fullScheme.length / 2)).isEmpty) = true ↔ 2 ≤ fullScheme.length := by
  have ht : (fullScheme.take (fullScheme.length / 2)).length = fullScheme.length / 2 := by
    rw [List.length_take]; omega
  have hd : (fullScheme.drop (fullScheme.length / 2)).length =
      fullScheme.length - fullScheme.length / 2 := List.length_drop _ _
  have ht0 : (fullScheme.take (fullScheme.length / 2)).isEmpty = true ↔
      fullScheme.length / 2 = 0 := by
    rw [List.isEmpty_iff, ← List.length_eq_zero, ht]
  have hd0 : (fullScheme.drop (fullScheme.length / 2)).isEmpty = true ↔
      fullScheme.length - fullScheme.length / 2 = 0 := by
    rw [List.isEmpty_iff, ← List.length_eq_zero, hd]
  simp only [Bool.and_eq_true, Bool.not_eq_true', ← Bool.not_eq_true, ht0, hd0]
  omega

theorem decomposeScheme_fails (fullScheme : List LevelVector) (coeffs : List real)
    (ds : List (List LevelVector)) (dc : List (List real)) (numSystems : Nat)
    (hn : fullScheme.length < 2) :
    decomposeScheme fullScheme coeffs ds dc numSystems = .error .assertion := by
  have hb : (!(fullScheme.take (fullScheme.length / 2)).isEmpty &&
      !(fullScheme.drop (fullScheme.length / 2)).isEmpty) = false := by
    rw [← Bool.not_eq_true, halves_nonempty_iff]
    omega
  simp only [decomposeScheme, hb, assertThat, Bool.false_eq_true, if_false, bind, Except.bind]

theorem getTask_append {Task : Type} (getID : Task → Int) (tasks_ rest : List Task)
    (taskID : Int) :
    getTask getID (tasks_ ++ rest) taskID =
      match getTask getID tasks_ taskID with
      | some r => some r
      | none => getTask getID rest taskID := by
  induction tasks_ with
  | nil => rfl
  | cons a t ih =>
    rw [List.cons_append]
    simp only [getTask]
    by_cases h : getID a = taskID
    · simp only [h, if_true]
    · simp only [h, if_false]
      exact ih

theorem getTask_eq_none_iff {Task : Type} (getID : Task → Int) (tasks_ : List Task)
    (taskID : Int) :
    getTask getID tasks_ taskID = none ↔ ∀ u ∈ tasks_, getID u ≠ taskID := by
  induction tasks_ with
  | nil => simp [getTask]
  | cons a t ih =>
    simp only [getTask, List.forall_mem_cons]
    by_cases h : getID a = taskID
    · simp [h]
    · simp [h, ih]

theorem getTask_eq_some_iff {Task : Type} (getID : Task → Int) (tasks_ : List Task)
    (taskID : Int) (r : Task) :
    getTask getID tasks_ taskID = some r ↔
      ∃ pre post, tasks_ = pre ++ r :: post ∧ getID r = taskID ∧
        ∀ u ∈ pre, getID u ≠ taskID := by
  induction tasks_ with
  | nil => simp [getTask]
  | cons a t ih =>
    simp only [getTask]
    by_cases h : getID a = taskID
    · simp only [h, if_true, Option.some.injEq]
      constructor
      · rintro rfl
        exact ⟨[], t, rfl, h, fun u hu => absurd hu (List.not_mem_nil u)⟩
      · rintro ⟨pre, post, heq, hr, hpre⟩
        cases pre with
        | nil =>
          simp only [List.nil_append, List.cons.injEq] at heq
          exact heq.1
        | cons b pre =>
          simp only [List.cons_append, List.cons.injEq] at heq
          exact absurd (heq.1 ▸ h) (hpre b (List.mem_cons_self _ _))
    · simp only [h, if_false, ih]
      constructor
      · rintro ⟨pre, post, heq, hr, hpre⟩
        refine ⟨a :: pre, post, by rw [heq]; rfl, hr, ?_⟩
        intro u hu
        rcases List.mem_cons.mp hu with rfl | hu
        · exact h
        · exact hpre u hu
      · rintro ⟨pre, post, heq, hr, hpre⟩
        cases pre with
        | nil =>
          simp only [List.nil_append, List.cons.injEq] at heq
          exact absurd (heq.1 ▸ hr) h
        | cons b pre =>
          simp only [List.cons_append, List.cons.injEq] at heq
          exact ⟨pre, post, heq.2, hr, fun u hu => hpre u (List.mem_cons_of_mem _ hu)⟩

theorem levelVector_eq_of_getD (a b : LevelVector) (hlen : a.length = b.length)
    (h : ∀ d, d < a.length → a.getD d 0 = b.getD d 0) : a = b := by
  apply List.ext_getElem hlen
  intro n h1 h2
  have := h n h1
  rw [List.getD_eq_getElem _ _ h1, List.getD_eq_getElem _ _ h2] at this
  exact this

theorem partsMinVal_swap (d : Nat) (A B : List LevelVector) (cur : Int) :
    partsMinVal d [A, B] cur = partsMinVal d [B, A] cur := by
  simp only [partsMinVal]
  split_ifs <;> omega

/-- The bound vector does not depend on the order of two parts. -/
theorem computeMaxLevel_swap (A B : List LevelVector) (dim : Nat) (hA : A ≠ []) (hB : B ≠ [])
    (hdimA : ∀ l ∈ A, l.length = dim) (hdimB : ∀ l ∈ B, l.length = dim) :
    ∃ M, computeMaxLevel [A, B] = .ok (dim, M) ∧ computeMaxLevel [B, A] = .ok (dim, M) := by
  obtain ⟨a, A2, rfl⟩ := List.exists_cons_of_ne_nil hA
  obtain ⟨b, B2, rfl⟩ := List.exists_cons_of_ne_nil hB
  have hd1 : ∀ part ∈ [a :: A2, b :: B2], ∀ l ∈ part, l.length = dim := by
    intro part hp l hl
    simp only [List.mem_cons, List.mem_singleton, List.not_mem_nil, or_false] at hp
    rcases hp with rfl | rfl
    · exact hdimA l hl
    · exact hdimB l hl
  have hd2 : ∀ part ∈ [b :: B2, a :: A2], ∀ l ∈ part, l.length = dim := by
    intro part hp l hl
    simp only [List.mem_cons, List.mem_singleton, List.not_mem_nil, or_false] at hp
    rcases hp with rfl | rfl
    · exact hdimB l hl
    · exact hdimA l hl
  obtain ⟨M1, h1, hl1, hv1⟩ := computeMaxLevel_eq [a :: A2, b :: B2] dim
    ⟨a :: A2, a, by simp, by simp⟩ hd1
  obtain ⟨M2, h2, hl2, hv2⟩ := computeMaxLevel_eq [b :: B2, a :: A2] dim
    ⟨b :: B2, b, by simp, by simp⟩ hd2
  have heq : M1 = M2 := by
    apply levelVector_eq_of_getD M1 M2 (by rw [hl1, hl2])
    intro d hd
    rw [hl1] at hd
    rw [hv1 d hd, hv2 d hd, partsMinVal_swap]
  exact ⟨M1, h1, by rw [heq]; exact h2⟩

/-! ### Lemmas on the displacements of the gather -/

theorem wrapInt32_of_fits (x : Int) (h0 : 0 ≤ x) (h1 : x < 2 ^ 31) : wrapInt32 x = x := by
  unfold wrapInt32
  omega

theorem sum_take_succ_getD (l : List Int) (i : Nat) (hi : i < l.length) :
    (l.take (i + 1)).sum = (l.take i).sum + l.getD i 0 := by
  rw [List.sum_take_succ l i hi, List.getD_eq_getElem _ _ hi]

theorem sum_take_le_succ (l : List Int) (hnn : ∀ s ∈ l, 0 ≤ s) (i : Nat) :
    (l.take i).sum ≤ (l.take (i + 1)).sum := by
  by_cases hi : i < l.length
  · rw [sum_take_succ_getD l i hi]
    have : 0 ≤ l.getD i 0 := by
      rw [List.getD_eq_getElem _ _ hi]
      exact hnn _ (List.getElem_mem _)
    omega
  · rw [List.take_of_length_le (by omega : l.length ≤ i),
      List.take_of_length_le (by omega : l.length ≤ i + 1)]

theorem sum_take_mono (l : List Int) (hnn : ∀ s ∈ l, 0 ≤ s) (i j : Nat) (hij : i ≤ j) :
    (l.take i).sum ≤ (l.take j).sum := by
  induction j, hij using Nat.le_induction with
  | base => exact le_refl _
  | succ k _ ih => exact le_trans ih (sum_take_le_succ l hnn k)

theorem sum_take_nonneg (l : List Int) (hnn : ∀ s ∈ l, 0 ≤ s) (i : Nat) :
    0 ≤ (l.take i).sum := by
  have := sum_take_mono l hnn 0 i (Nat.zero_le i)
  simpa using this

theorem sum_take_le_sum (l : List Int) (hnn : ∀ s ∈ l, 0 ≤ s) (i : Nat) :
    (l.take i).sum ≤ l.sum := by
  by_cases hi : i ≤ l.length
  · have := sum_take_mono l hnn i l.length hi
    rwa [List.take_length] at this
  · rw [List.take_of_length_le (by omega : l.length ≤ i)]

/-- Every position below the sum of a list of non-negative sizes lies in exactly the slice
of some index. -/
theorem sum_take_cover (l : List Int) (x : Int) (h0 : 0 ≤ x) (k : Nat)
    (hk : k ≤ l.length) (hx : x < (l.take k).sum) :
    ∃ i, i < k ∧ (l.take i).sum ≤ x ∧ x < (l.take i).sum + l.getD i 0 := by
  induction k with
  | zero =>
    simp at hx
    omega
  | succ k ih =>
    by_cases hlt : x < (l.take k).sum
    · obtain ⟨i, hi, h1, h2⟩ := ih (by omega) hlt
      exact ⟨i, by omega, h1, h2⟩
    · refine ⟨k, by omega, by omega, ?_⟩
      rw [← sum_take_succ_getD l k (by omega)]
      exact hx

theorem accumulateInt_foldl (l : List Int) (hnn : ∀ s ∈ l, 0 ≤ s) (acc : Int) (h0 : 0 ≤ acc)
    (hfit : acc + l.sum < 2 ^ 31) :
    l.foldl (fun acc x => wrapInt32 (acc + x)) acc = acc + l.sum := by
  induction l generalizing acc with
  | nil => simp
  | cons a t ih =>
    have ha : 0 ≤ a := hnn a (List.mem_cons_self _ _)
    have ht : ∀ s ∈ t, 0 ≤ s := fun s hs => hnn s (List.mem_cons_of_mem _ hs)
    have htn : 0 ≤ t.sum := List.sum_nonneg ht
    rw [List.sum_cons] at hfit
    rw [List.foldl_cons, wrapInt32_of_fits (acc + a) (by omega) (by omega),
      ih ht (acc + a) (by omega) (by omega), List.sum_cons]
    omega

theorem accumulateInt_eq (l : List Int) (hnn : ∀ s ∈ l, 0 ≤ s) (hfit : l.sum < 2 ^ 31) :
    accumulateInt l = l.sum := by
  unfold accumulateInt
  rw [accumulateInt_foldl l hnn 0 (le_refl _) (by omega)]
  omega

/-- The loop that fills `displ`, run over the indices `s, ..., s + m - 1`: it leaves the
entries outside these indices alone and writes the exclusive prefix sums inside. -/
theorem displLoop_range' (sizes : List Int) (hnn : ∀ s ∈ sizes, 0 ≤ s)
    (hfit : sizes.sum < 2 ^ 31) (m s : Nat) (displ : List Int) (hs : 1 ≤ s)
    (hlen : displ.length = sizes.length) (hsm : s + m ≤ sizes.length)
    (hprev : displ.getD (s - 1) 0 = (sizes.take (s - 1)).sum) :
    (displLoop sizes (List.range' s m) displ).length = sizes.length ∧
      ∀ i, (displLoop sizes (List.range' s m) displ).getD i 0 =
        if s ≤ i ∧ i < s + m then (sizes.take i).sum else displ.getD i 0 := by
  induction m generalizing s displ with
  | zero =>
    refine ⟨hlen, fun i => ?_⟩
    have : ¬ (s ≤ i ∧ i < s + 0) := by omega
    simp only [List.range'_zero, displLoop, this, if_false]
  | succ m ih =>
    have hval : wrapInt32 (displ.getD (s - 1) 0 + sizes.getD (s - 1) 0) = (sizes.take s).sum := by
      have hsucc := sum_take_succ_getD sizes (s - 1) (by omega)
      have e : s - 1 + 1 = s := by omega
      rw [e] at hsucc
      rw [hprev, ← hsucc]
      exact wrapInt32_of_fits _ (sum_take_nonneg sizes hnn s)
        (lt_of_le_of_lt (sum_take_le_sum sizes hnn s) hfit)
    have hstep : displLoop sizes (List.range' s (m + 1)) displ =
        displLoop sizes (List.range' (s + 1) m) (displ.set s ((sizes.take s).sum)) := by
      simp only [List.range'_succ, displLoop, hval]
    have hsl : s < displ.length := by omega
    obtain ⟨h1, h2⟩ := ih (s + 1) (displ.set s ((sizes.take s).sum)) (by omega)
      (by simpa using hlen) (by omega)
      (by simp [List.getD_eq_getElem?_getD, List.getElem?_set, hsl])
    rw [hstep]
    refine ⟨h1, fun i => ?_⟩
    rw [h2 i]
    by_cases hi : s + 1 ≤ i ∧ i < s + 1 + m
    · have : s ≤ i ∧ i < s + (m + 1) := by omega
      simp only [hi, this, and_self, if_true]
    · by_cases his : i = s
      · subst his
        have : i ≤ i ∧ i < i + (m + 1) := by omega
        simp [hi, this, List.getD_eq_getElem?_getD, List.getElem?_set, hsl]
      · have : ¬ (s ≤ i ∧ i < s + (m + 1)) := by omega
        have hne : s ≠ i := fun e => his e.symm
        simp [hi, this, List.getD_eq_getElem?_getD, List.getElem?_set, hne]

/-- For non-negative part sizes whose sum fits an `int`, the displacements are the
exclusive prefix sums of the sizes. -/
theorem gatherDispl_eq (env : ManagerEnv) (hnn : ∀ s ∈ env.commonSSPartsSizes, 0 ≤ s)
    (hfit : env.commonSSPartsSizes.sum < 2 ^ 31) :
    gatherDispl env = (List.range env.commonSSPartsSizes.length).map
      (fun i => (env.commonSSPartsSizes.take i).sum) := by
  unfold gatherDispl
  by_cases hn : env.commonSSPartsSizes.length = 0
  · simp [hn, displLoop]
  · obtain ⟨h1, h2⟩ := displLoop_range' env.commonSSPartsSizes hnn hfit
      (env.commonSSPartsSizes.length - 1) 1
      (List.replicate env.commonSSPartsSizes.length (0 : Int)) (le_refl _) (by simp) (by omega)
      (by simp [List.getD_eq_getElem?_getD, List.getElem?_replicate, Nat.pos_of_ne_zero hn])
    apply List.ext_getElem (by simpa using h1)
    intro i hi1 hi2
    have hi : i < env.commonSSPartsSizes.length := by simpa using hi2
    have hg := h2 i
    rw [List.getD_eq_getElem _ _ hi1] at hg
    rw [hg]
    by_cases h0 : 1 ≤ i
    · have : 1 ≤ i ∧ i < 1 + (env.commonSSPartsSizes.length - 1) := by omega
      simp [this]
    · have hi0 : i = 0 := by omega
      subst hi0
      simp [List.getD_eq_getElem?_getD, List.getElem?_replicate, hi]

theorem gather_ok (env : ManagerEnv) (hg : env.gatherCommonSubspacesSuccess = true)
    (hs : 0 ≤ accumulateInt env.commonSSPartsSizes) :
    gatherCommonSubSpacesFromThirdLevelReducePG env =
      ⟨[.gatherCommonSubspaces, .MPI_Gather,
        .MPI_Gatherv env.commonSSPartsSizes (gatherDispl env)],
        .ok ((accumulateInt env.commonSSPartsSizes % 2 ^ 64).toNat)⟩ := by
  simp only [gatherCommonSubSpacesFromThirdLevelReducePG, Traced.bind_eq, call_andThen, hg,
    check_true_andThen, resizeCommonSubspaces_of_nonneg _ hs, Traced.mk_ok_andThen,
    Traced.pure_eq, gatherDispl, List.nil_append]

/-! ### Doubles in the unit interval -/

theorem Double.absLeOne_of_isZero (a : Double) (ha : a.isZero = true) : a.AbsLeOne := by
  cases a with
  | finite s m e =>
    simp only [Double.isZero, beq_iff_eq] at ha
    exact Or.inl ha
  | inf s => cases ha
  | nan => cases ha

/-- C1: for a scheme with at least two level vectors and as many coefficients,
`decomposeScheme` (called, as in `createThirdLevelScheme`, on empty output vectors) returns
exactly two level parts and two coefficient parts; part 0 followed by part 1 is the input
list of levels, and the same holds for the coefficients. -/
theorem decomposeScheme_concat (levels : List LevelVector) (coeffs : List real)
    (numSystems : Nat) (hn : 2 ≤ levels.length) (hc : coeffs.length = levels.length) :
    ∃ p0 p1 c0 c1, decomposeScheme levels coeffs [] [] numSystems = .ok ([p0, p1], [c0, c1]) ∧
      p0 ++ p1 = levels ∧ c0 ++ c1 = coeffs := by
  refine ⟨_, _, _, _, decomposeScheme_eq levels coeffs [] [] numSystems hn, ?_, ?_⟩
  · exact List.take_append_drop _ _
  · exact List.take_append_drop _ _

theorem decomposeScheme_concat_witness :
    ∃ p0 p1 c0 c1, decomposeScheme [[1, 3], [2, 2], [3, 1]] [1, 1, -1] [] [] 2 =
        .ok ([p0, p1], [c0, c1]) ∧
      p0 ++ p1 = [[1, 3], [2, 2], [3, 1]] ∧ c0 ++ c1 = [1, 1, -1] :=
  decomposeScheme_concat [[1, 3], [2, 2], [3, 1]] [1, 1, -1] 2 (by decide) (by decide)

/-- C2: for a scheme with at least two entries whose level vectors are pairwise distinct,
the two parts returned by `decomposeScheme` are disjoint: no level vector of part 0 occurs
in part 1. -/
theorem decomposeScheme_disjoint (levels : List LevelVector) (coeffs : List real)
    (numSystems : Nat) (hn : 2 ≤ levels.length) (hd : levels.Nodup) :
    ∃ p0 p1 dc, decomposeScheme levels coeffs [] [] numSystems = .ok ([p0, p1], dc) ∧
      ∀ l, l ∈ p0 → l ∉ p1 := by
  refine ⟨_, _, _, decomposeScheme_eq levels coeffs [] [] numSystems hn, ?_⟩
  intro l h0 h1
  exact List.disjoint_take_drop hd (le_refl _) h0 h1

theorem decomposeScheme_disjoint_witness :
    ∃ p0 p1 dc, decomposeScheme [[1, 3], [2, 2], [3, 1]] [1, 1, -1] [] [] 2 =
        .ok ([p0, p1], dc) ∧ ∀ l, l ∈ p0 → l ∉ p1 :=
  decomposeScheme_disjoint [[1, 3], [2, 2], [3, 1]] [1, 1, -1] 2 (by decide) (by decide)

/-- C3: for a scheme of `n >= 2` entries `decomposeScheme` splits at the midpoint: part 0 is
the first `n / 2` entries (levels and coefficients), part 1 is the remaining `n - n / 2`
entries, and part 1 has as many entries as part 0 or exactly one more. -/
theorem decomposeScheme_midpoint (levels : List LevelVector) (coeffs : List real)
    (numSystems : Nat) (hn : 2 ≤ levels.length) (hc : coeffs.length = levels.length) :
    decomposeScheme levels coeffs [] [] numSystems =
        .ok ([levels.take (levels.length / 2), levels.drop (levels.length / 2)],
             [coeffs.take (levels.length / 2), coeffs.drop (levels.length / 2)]) ∧
      (levels.take (levels.length / 2)).length = levels.length / 2 ∧
      (levels.drop (levels.length / 2)).length = levels.length - levels.length / 2 ∧
      ((levels.drop (levels.length / 2)).length = (levels.take (levels.length / 2)).length ∨
       (levels.drop (levels.length / 2)).length =
          (levels.take (levels.length / 2)).length + 1) := by
  refine ⟨?_, ?_, ?_, ?_⟩
  · rw [decomposeScheme_eq levels coeffs [] [] numSystems hn, hc]
    rfl
  · simp; omega
  · simp
  · simp; omega

theorem decomposeScheme_midpoint_witness :
    decomposeScheme [[1, 3], [2, 2], [3, 1]] [1, 1, -1] [] [] 2 =
        .ok ([[[1, 3], [2, 2], [3, 1]].take ([[1, 3], [2, 2], [3, 1]].length / 2),
              [[1, 3], [2, 2], [3, 1]].drop ([[1, 3], [2, 2], [3, 1]].length / 2)],
             [[1, 1, -1].take ([[1, 3], [2, 2], [3, 1]].length / 2),
              [1, 1, -1].drop ([[1, 3], [2, 2], [3, 1]].length / 2)]) ∧
      ([[1, 3], [2, 2], [3, 1]].take ([[1, 3], [2, 2], [3, 1]].length / 2)).length =
        [[1, 3], [2, 2], [3, 1]].length / 2 ∧
      ([[1, 3], [2, 2], [3, 1]].drop ([[1, 3], [2, 2], [3, 1]].length / 2)).length =
        [[1, 3], [2, 2], [3, 1]].length - [[1, 3], [2, 2], [3, 1]].length / 2 ∧
      (([[1, 3], [2, 2], [3, 1]].drop ([[1, 3], [2, 2], [3, 1]].length / 2)).length =
          ([[1, 3], [2, 2], [3, 1]].take ([[1, 3], [2, 2], [3, 1]].length / 2)).length ∨
       ([[1, 3], [2, 2], [3, 1]].drop ([[1, 3], [2, 2], [3, 1]].length / 2)).length =
          ([[1, 3], [2, 2], [3, 1]].take ([[1, 3], [2, 2], [3, 1]].length / 2)).length + 1) :=
  decomposeScheme_midpoint [[1, 3], [2, 2], [3, 1]] [1, 1, -1] 2 (by decide) (by decide)

/-- C6: for a decomposed scheme (at least one part) whose parts are all non-empty and whose
level vectors all have the same dimension `dim` with positive entries below `2^31 - 1`,
`computeCommonSubspaces` computes the bound vector `maxLevel` of length `dim` with, in every
dimension `d`, `maxLevel[d]` the least over the parts of the greatest `d`-th entry of the
levels of the part. -/
theorem computeMaxLevel_min_of_max (ds : List (List LevelVector)) (dim : Nat)
    (hds : ds ≠ []) (hne : ∀ part ∈ ds, part ≠ [])
    (hdim : ∀ part ∈ ds, ∀ l ∈ part, l.length = dim)
    (hpos : ∀ part ∈ ds, ∀ l ∈ part, ∀ v ∈ l, 0 < v ∧ v < 2 ^ 31 - 1) :
    ∃ maxLevel, computeMaxLevel ds = .ok (dim, maxLevel) ∧ maxLevel.length = dim ∧
      ∀ d, d < dim → ∃ m, maxLevel[d]? = some m ∧
        IsLeast {b | ∃ part ∈ ds, IsGreatest {v | ∃ l ∈ part, l[d]? = some v} b} m := by
  obtain ⟨part0, rest, rfl⟩ := List.exists_cons_of_ne_nil hds
  obtain ⟨level0, rest0, rfl⟩ :=
    List.exists_cons_of_ne_nil (hne part0 (List.mem_cons_self _ _))
  obtain ⟨maxLevel, hrun, hlen, hval⟩ :=
    computeMaxLevel_eq ((level0 :: rest0) :: rest) dim
      ⟨level0 :: rest0, level0, by simp, by simp⟩ hdim
  refine ⟨maxLevel, hrun, hlen, ?_⟩
  intro d hd
  have hgreat : ∀ part ∈ (level0 :: rest0) :: rest,
      IsGreatest {v | ∃ l ∈ part, l[d]? = some v} (dimMaxVal d part 0) :=
    fun part hp => dimMaxVal_isGreatest d part (hne part hp)
      (fun l hl => by rw [hdim part hp l hl]; exact hd)
      (fun l hl v hv => (hpos part hp l hl v hv).1)
  refine ⟨maxLevel.getD d 0, getElem?_eq_some_getD maxLevel d (by omega), ?_⟩
  rw [hval d hd]
  constructor
  · rcases partsMinVal_attained d ((level0 :: rest0) :: rest) longMax with h | ⟨p, hp, hv⟩
    · exfalso
      have hp0 : (level0 :: rest0) ∈ (level0 :: rest0) :: rest := List.mem_cons_self _ _
      have h1 := partsMinVal_le_part d _ longMax _ hp0
      obtain ⟨l, hl, hv⟩ := (hgreat _ hp0).1
      have h2 := (hpos _ hp0 l hl _ (List.getElem?_mem hv)).2
      rw [h] at h1
      simp only [longMax] at h1
      omega
    · exact ⟨p, hp, by rw [hv]; exact hgreat p hp⟩
  · rintro b ⟨p, hp, hb⟩
    rw [hb.unique (hgreat p hp)]
    exact partsMinVal_le_part d _ longMax p hp

theorem computeMaxLevel_min_of_max_witness :
    ∃ maxLevel, computeMaxLevel [[[1, 3], [2, 2]], [[3, 1]]] = .ok (2, maxLevel) ∧
      maxLevel.length = 2 ∧
      ∀ d, d < 2 → ∃ m, maxLevel[d]? = some m ∧
        IsLeast {b | ∃ part ∈ [[[1, 3], [2, 2]], [[3, 1]]],
          IsGreatest {v | ∃ l ∈ part, l[d]? = some v} b} m :=
  computeMaxLevel_min_of_max [[[1, 3], [2, 2]], [[3, 1]]] 2 (by decide) (by decide)
    (by decide) (by decide)

/-- C5: for a decomposed scheme whose first part has a first level and whose levels all
have dimension `dim`, and a sparse grid that enumerates subspaces of dimension `dim` at the
computed bound `maxLevel`, `computeCommonSubspaces` returns a list that holds an enumerated
subspace `σ` if and only if every part has a level `l` that dominates `σ` componentwise
(`σ[d] <= l[d]` for all `d < dim`), and that holds no subspace that was not enumerated. -/
theorem computeCommonSubspaces_iff_dominated (sg : SGridLevels)
    (ds : List (List LevelVector)) (boundary : List Bool) (dim : Nat)
    (h0 : ∃ part0 level0, ds[0]? = some part0 ∧ part0[0]? = some level0)
    (hdim : ∀ part ∈ ds, ∀ l ∈ part, l.length = dim)
    (hsg : ∀ M, computeMaxLevel ds = .ok (dim, M) → ∀ σ ∈ sg dim M M boundary,
      σ.length = dim) :
    ∃ maxLevel common, computeMaxLevel ds = .ok (dim, maxLevel) ∧
      computeCommonSubspaces sg ds boundary = .ok common ∧
      (∀ σ ∈ sg dim maxLevel maxLevel boundary,
        (σ ∈ common ↔ ∀ part ∈ ds, ∃ l ∈ part,
          ∀ d, d < dim → ∃ a b, σ[d]? = some a ∧ l[d]? = some b ∧ a ≤ b)) ∧
      ∀ σ ∈ common, σ ∈ sg dim maxLevel maxLevel boundary := by
  obtain ⟨M, del, hM, hrun, hdel⟩ := computeCommonSubspaces_eq sg ds boundary dim h0 hdim hsg
  refine ⟨M, _, hM, hrun, ?_, ?_⟩
  · intro σ hσ
    have hlen := hsg M hM σ hσ
    have hin : σ ∈ (sg dim M M boundary).filter (fun ss => !del.contains ss) ↔ σ ∉ del := by
      simp [List.mem_filter, hσ]
    rw [hin, hdel σ]
    simp only [hσ, true_and, not_exists, not_and, not_forall]
    constructor
    · intro h part hp
      obtain ⟨l, hl, hd⟩ := h part hp
      exact ⟨l, hl, (dominated_iff dim σ l hlen (hdim part hp l hl)).mp
        (fun ⟨d, h1, h2⟩ => hd d h1 h2)⟩
    · intro h part hp
      obtain ⟨l, hl, hd⟩ := h part hp
      exact ⟨l, hl, fun d h1 h2 =>
        (dominated_iff dim σ l hlen (hdim part hp l hl)).mpr hd ⟨d, h1, h2⟩⟩
  · intro σ hσ
    exact (List.mem_filter.mp hσ).1

theorem computeCommonSubspaces_iff_dominated_witness :
    ∃ maxLevel common, computeMaxLevel [[[1, 3], [2, 2]], [[3, 1]]] = .ok (2, maxLevel) ∧
      computeCommonSubspaces exampleSGrid [[[1, 3], [2, 2]], [[3, 1]]] [true, true] =
        .ok common ∧
      (∀ σ ∈ exampleSGrid 2 maxLevel maxLevel [true, true],
        (σ ∈ common ↔ ∀ part ∈ ([[[1, 3], [2, 2]], [[3, 1]]] : List (List LevelVector)),
          ∃ l ∈ part,
          ∀ d, d < 2 → ∃ a b, σ[d]? = some a ∧ l[d]? = some b ∧ a ≤ b)) ∧
      ∀ σ ∈ common, σ ∈ exampleSGrid 2 maxLevel maxLevel [true, true] :=
  computeCommonSubspaces_iff_dominated exampleSGrid [[[1, 3], [2, 2]], [[3, 1]]]
    [true, true] 2 ⟨[[1, 3], [2, 2]], [1, 3], rfl, rfl⟩ (by decide)
    (fun M _ => exampleSGrid_length 2 M M [true, true])

/-- C4: for a scheme of `n >= 2` levels of dimension `dim` with exactly `n` coefficients,
a sparse grid that enumerates vectors of dimension `dim`, `numSystems = 2` and
`systemNumber = s < 2`, `createThirdLevelScheme` returns with `levels` and `coeffs` replaced
by the part of system `s`: the outputs have equal length and zipped they are the first
`n / 2` input pairs for `s = 0` and the remaining pairs for `s = 1`. -/
theorem createThirdLevelScheme_part (sg : SGridLevels) (levels : List LevelVector)
    (coeffs : List real) (cs0 : List LevelVector) (boundary : List Bool) (s dim : Nat)
    (hn : 2 ≤ levels.length) (hc : coeffs.length = levels.length) (hs : s < 2)
    (hdim : ∀ l ∈ levels, l.length = dim)
    (hsg : ∀ M, ∀ σ ∈ sg dim M M boundary, σ.length = dim) :
    ∃ lv cf cs, createThirdLevelScheme sg levels coeffs cs0 boundary s 2 = .ok (lv, cf, cs) ∧
      lv.length = cf.length ∧
      lv.zip cf = (if s = 0 then (levels.zip coeffs).take (levels.length / 2)
        else (levels.zip coeffs).drop (levels.length / 2)) := by
  obtain ⟨common, hcommon⟩ := computeCommonSubspaces_halves sg levels boundary dim hn hdim hsg
  have hcne : coeffs ≠ [] := by
    intro h
    rw [h] at hc
    simp at hc
    omega
  have hs01 : s = 0 ∨ s = 1 := by omega
  rcases hs01 with rfl | rfl
  · refine ⟨levels.take (levels.length / 2), coeffs.take (coeffs.length / 2), common,
      createThirdLevelScheme_eq sg levels coeffs cs0 boundary 0 2 hn hcne (le_refl _) _ _ _
        rfl rfl hcommon, ?_, ?_⟩
    · simp [hc]
    · simp only [if_true, hc, List.zip]
      exact List.take_zipWith.symm
  · refine ⟨levels.drop (levels.length / 2), coeffs.drop (coeffs.length / 2), common,
      createThirdLevelScheme_eq sg levels coeffs cs0 boundary 1 2 hn hcne (le_refl _) _ _ _
        rfl rfl hcommon, ?_, ?_⟩
    · simp [hc]
    · simp only [one_ne_zero, if_false, hc, List.zip]
      exact List.drop_zipWith.symm

theorem createThirdLevelScheme_part_witness :
    ∃ lv cf cs, createThirdLevelScheme exampleSGrid [[1, 3], [2, 2], [3, 1]] [1, 1, -1] []
        [true, true] 1 2 = .ok (lv, cf, cs) ∧
      lv.length = cf.length ∧
      lv.zip cf = (if 1 = 0 then
          ([[1, 3], [2, 2], [3, 1]].zip [1, 1, -1]).take ([[1, 3], [2, 2], [3, 1]].length / 2)
        else
          ([[1, 3], [2, 2], [3, 1]].zip [1, 1, -1]).drop
            ([[1, 3], [2, 2], [3, 1]].length / 2)) :=
  createThirdLevelScheme_part exampleSGrid [[1, 3], [2, 2], [3, 1]] [1, 1, -1] []
    [true, true] 1 2 (by decide) (by decide) (by decide) (by decide)
    (fun M => exampleSGrid_length 2 M M [true, true])

/-- C7: for a full scheme of `n >= 2` levels of dimension `dim` with `n` coefficients and a
sparse grid that enumerates vectors of dimension `dim`, the calls of
`createThirdLevelScheme` with `numSystems = 2` for `systemNumber = 0` and for
`systemNumber = 1` both return, with the same list `commonSubspaces`. -/
theorem createThirdLevelScheme_common_stable (sg : SGridLevels)
    (levels : List LevelVector) (coeffs : List real) (cs0 : List LevelVector)
    (boundary : List Bool) (dim : Nat)
    (hn : 2 ≤ levels.length) (hc : coeffs.length = levels.length)
    (hdim : ∀ l ∈ levels, l.length = dim)
    (hsg : ∀ M, ∀ σ ∈ sg dim M M boundary, σ.length = dim) :
    ∃ lv0 cf0 lv1 cf1 common,
      createThirdLevelScheme sg levels coeffs cs0 boundary 0 2 = .ok (lv0, cf0, common) ∧
      createThirdLevelScheme sg levels coeffs cs0 boundary 1 2 = .ok (lv1, cf1, common) := by
  obtain ⟨common, hcommon⟩ := computeCommonSubspaces_halves sg levels boundary dim hn hdim hsg
  have hcne : coeffs ≠ [] := by
    intro h
    rw [h] at hc
    simp at hc
    omega
  exact ⟨_, _, _, _, common,
    createThirdLevelScheme_eq sg levels coeffs cs0 boundary 0 2 hn hcne (le_refl _) _ _ _
      rfl rfl hcommon,
    createThirdLevelScheme_eq sg levels coeffs cs0 boundary 1 2 hn hcne (le_refl _) _ _ _
      rfl rfl hcommon⟩

theorem createThirdLevelScheme_common_stable_witness :
    ∃ lv0 cf0 lv1 cf1 common,
      createThirdLevelScheme exampleSGrid [[1, 3], [2, 2], [3, 1]] [1, 1, -1] []
        [true, true] 0 2 = .ok (lv0, cf0, common) ∧
      createThirdLevelScheme exampleSGrid [[1, 3], [2, 2], [3, 1]] [1, 1, -1] []
        [true, true] 1 2 = .ok (lv1, cf1, common) :=
  createThirdLevelScheme_common_stable exampleSGrid [[1, 3], [2, 2], [3, 1]] [1, 1, -1] []
    [true, true] 2 (by decide) (by decide) (by decide)
    (fun M => exampleSGrid_length 2 M M [true, true])

/-- C8: for a non-empty scheme (non-empty `levels` and `coeffs`) and every `systemNumber`,
`createThirdLevelScheme` called with `numSystems < 2` returns with `levels`, `coeffs` and
`commonSubspaces` unchanged. -/
theorem createThirdLevelScheme_no_decomposition (sg : SGridLevels)
    (levels : List LevelVector) (coeffs : List real) (commonSubspaces : List LevelVector)
    (boundary : List Bool) (systemNumber numSystems : Nat)
    (hl : levels ≠ []) (hc : coeffs ≠ []) (hS : numSystems < 2) :
    createThirdLevelScheme sg levels coeffs commonSubspaces boundary systemNumber numSystems =
      .ok (levels, coeffs, commonSubspaces) := by
  have hle : levels.isEmpty = false := by
    cases levels with
    | nil => exact absurd rfl hl
    | cons a t => rfl
  have hce : coeffs.isEmpty = false := by
    cases coeffs with
    | nil => exact absurd rfl hc
    | cons a t => rfl
  simp only [createThirdLevelScheme, hle, hce, Bool.not_false, Bool.and_self, assertThat_true,
    hS, if_true, bind, Except.bind, pure, Except.pure]

theorem createThirdLevelScheme_no_decomposition_witness :
    createThirdLevelScheme exampleSGrid [[1, 3], [2, 2], [3, 1]] [1, 1, -1] [[7, 7]]
        [true, true] 5 1 = .ok ([[1, 3], [2, 2], [3, 1]], [1, 1, -1], [[7, 7]]) :=
  createThirdLevelScheme_no_decomposition exampleSGrid [[1, 3], [2, 2], [3, 1]] [1, 1, -1]
    [[7, 7]] [true, true] 5 1 (by decide) (by decide) (by decide)

/-- C9: for every boundary, `systemNumber` and `numSystems`, `createThirdLevelScheme`
called with an empty `levels` list or an empty `coeffs` list fails on its assertion and
returns no decomposition. -/
theorem createThirdLevelScheme_empty_fails (sg : SGridLevels)
    (levels : List LevelVector) (coeffs : List real) (commonSubspaces : List LevelVector)
    (boundary : List Bool) (systemNumber numSystems : Nat)
    (h : levels = [] ∨ coeffs = []) :
    createThirdLevelScheme sg levels coeffs commonSubspaces boundary systemNumber numSystems =
      .error .assertion := by
  have hb : (!levels.isEmpty && !coeffs.isEmpty) = false := by
    rcases h with rfl | rfl
    · rfl
    · simp
  simp only [createThirdLevelScheme, hb, assertThat, Bool.false_eq_true, if_false, bind,
    Except.bind]

theorem createThirdLevelScheme_empty_fails_witness :
    createThirdLevelScheme exampleSGrid [[1, 3], [2, 2]] [] [] [true, true] 0 2 =
      .error .assertion :=
  createThirdLevelScheme_empty_fails exampleSGrid [[1, 3], [2, 2]] [] [] [true, true] 0 2
    (Or.inr rfl)

/-- C10: over exact rational arithmetic, for every coordinate vector `x` of dimension `d`,
`ParaboloidFn` returns `sign * ∏ x_i * (x_i - 1)` with `sign = 1` when `d` is odd and
`sign = -1` when `d` is even. -/
theorem ParaboloidFn_eq (x : List ℚ) :
    ParaboloidFn x =
      (if x.length % 2 = 1 then 1 else -1) * (x.map (fun xi => xi * (xi - 1))).prod := by
  unfold ParaboloidFn
  simp only [foldl_mul_eq (fun xi => xi * (xi - 1))]
  rcases Nat.mod_two_eq_zero_or_one x.length with h | h <;> simp [h]

/-- C11: when the instruction of the relay is "sendSubspaces", the calls of
`combineThirdLevel` are the calls before the exchange (none of them a subspace transfer)
followed by an initial segment of: gather from the third level reduce group (its signal and
the two MPI calls), `sendCommonSubspacesToRemote()`, send to the relay, receive from the
relay, integrate.  A call that returns has made all of them, in this order, so no receive
comes before the send, and it returns only when the third level reduce group accepted the
gather signal and the gathered buffer size (the `int` sum of the part sizes) is not
negative; a negative buffer size ends the call in `resize`, before the parts are gathered.
The call returns when it reaches the instruction, the group accepts the gather signal and
the buffer size is not negative. -/
theorem combineThirdLevel_sendSubspaces_order (env : ManagerEnv) (fuel : Nat)
    (h : env.instruction = "sendSubspaces") :
    ∃ pre ex, (combineThirdLevel env fuel).trace = pre ++ ex ∧
      (∀ e ∈ pre, e.isSubspaceTransfer = false) ∧
      (∃ rest, ex ++ rest =
        [Event.gatherCommonSubspaces, .MPI_Gather,
          .MPI_Gatherv env.commonSSPartsSizes (gatherDispl env),
          .sendCommonSubspacesToRemote, .sendCommonSubspaces, .receiveCommonSubspaces,
          .integrateSubspaces]) ∧
      ((combineThirdLevel env fuel).result = .ok () → ex =
        [Event.gatherCommonSubspaces, .MPI_Gather,
          .MPI_Gatherv env.commonSSPartsSizes (gatherDispl env),
          .sendCommonSubspacesToRemote, .sendCommonSubspaces, .receiveCommonSubspaces,
          .integrateSubspaces]) ∧
      ((combineThirdLevel env fuel).result = .ok () →
        env.gatherCommonSubspacesSuccess = true ∧ 0 ≤ accumulateInt env.commonSSPartsSizes) ∧
      (ReachesInstruction env fuel → env.gatherCommonSubspacesSuccess = true →
        0 ≤ accumulateInt env.commonSSPartsSizes →
        (combineThirdLevel env fuel).result = .ok ()) := by
  rcases combineThirdLevel_cases env fuel with ⟨polls, hp, hr⟩ | ⟨⟨stop, hs⟩, hnr, hm⟩
  · rw [h] at hr
    rcases exchange_sendSubspaces env with ⟨hg, hsz, hx⟩ | ⟨hg, hsz, hx⟩ | ⟨hg, hx⟩
    · rw [hx] at hr
      exact ⟨polls ++ (List.range env.numGroups).map Event.combineLocalAndGlobal ++
          [.waitAllFinished, .signalReady, .fetchInstruction "sendSubspaces"],
        sendSubspacesCalls env, by rw [hr], not_transfer_of_preamble polls _ _ hp,
        ⟨[], List.append_nil _⟩, fun _ => rfl, fun _ => ⟨hg, hsz⟩, fun _ _ _ => by rw [hr]⟩
    · rw [hx] at hr
      refine ⟨polls ++ (List.range env.numGroups).map Event.combineLocalAndGlobal ++
          [.waitAllFinished, .signalReady, .fetchInstruction "sendSubspaces"],
        _, by rw [hr], not_transfer_of_preamble polls _ _ hp, ⟨_, rfl⟩, ?_, ?_, ?_⟩
      · intro hok; rw [hr] at hok; cases hok
      · intro hok; rw [hr] at hok; cases hok
      · intro _ _ hsz2; exact absurd hsz (not_lt.mpr hsz2)
    · rw [hx] at hr
      refine ⟨polls ++ (List.range env.numGroups).map Event.combineLocalAndGlobal ++
          [.waitAllFinished, .signalReady, .fetchInstruction "sendSubspaces"],
        _, by rw [hr], not_transfer_of_preamble polls _ _ hp, ⟨_, rfl⟩, ?_, ?_, ?_⟩
      · intro hok; rw [hr] at hok; cases hok
      · intro hok; rw [hr] at hok; cases hok
      · intro _ hg2; rw [hg] at hg2; cases hg2
  · refine ⟨(combineThirdLevel env fuel).trace, [], (List.append_nil _).symm,
      not_transfer_of_stopped _ hm, ⟨_, List.nil_append _⟩, ?_, ?_, ?_⟩
    · intro hok; rw [hs] at hok; cases hok
    · intro hok; rw [hs] at hok; cases hok
    · intro hreach; exact absurd hreach hnr

theorem combineThirdLevel_sendSubspaces_order_witness :
    (combineThirdLevel (exampleEnv "sendSubspaces") 2).result = .ok () ∧
      ∃ pre, (combineThirdLevel (exampleEnv "sendSubspaces") 2).trace = pre ++
        [Event.gatherCommonSubspaces, .MPI_Gather,
          .MPI_Gatherv (exampleEnv "sendSubspaces").commonSSPartsSizes
            (gatherDispl (exampleEnv "sendSubspaces")),
          .sendCommonSubspacesToRemote, .sendCommonSubspaces, .receiveCommonSubspaces,
          .integrateSubspaces] ∧
        ∀ e ∈ pre, e.isSubspaceTransfer = false := by
  obtain ⟨pre, ex, ht, hpre, _, hfull, _, hret⟩ :=
    combineThirdLevel_sendSubspaces_order (exampleEnv "sendSubspaces") 2 rfl
  have hok := hret ⟨rfl, ⟨1, by decide, by unfold AllWaiting; decide⟩, fun _ _ => rfl⟩ rfl
    (by decide)
  exact ⟨hok, pre, by rw [ht, hfull hok], hpre⟩

/-- C12: when the instruction of the relay is "receiveSubspaces", the calls of
`combineThirdLevel` are the calls before the exchange (none of them a subspace transfer)
followed by an initial segment of: receive from the relay, reduce of the remote buffer with
the local common subspaces, gather from the third level reduce group (its signal and the two
MPI calls), send to the relay.  A call that returns has made all of them, in this order, so
no send comes before the receive, and it returns only when the third level reduce group
accepted the gather signal and the gathered buffer size (the `int` sum of the part sizes) is
not negative; a negative buffer size ends the call in `resize`, before the parts are
gathered.  The call returns when it reaches the instruction, the group accepts the gather
signal and the buffer size is not negative. -/
theorem combineThirdLevel_receiveSubspaces_order (env : ManagerEnv) (fuel : Nat)
    (h : env.instruction = "receiveSubspaces") :
    ∃ pre ex, (combineThirdLevel env fuel).trace = pre ++ ex ∧
      (∀ e ∈ pre, e.isSubspaceTransfer = false) ∧
      (∃ rest, ex ++ rest =
        [Event.receiveCommonSubspaces, .combineRemoteAndLocalSubspaces,
          .gatherCommonSubspaces, .MPI_Gather,
          .MPI_Gatherv env.commonSSPartsSizes (gatherDispl env), .sendCommonSubspaces]) ∧
      ((combineThirdLevel env fuel).result = .ok () → ex =
        [Event.receiveCommonSubspaces, .combineRemoteAndLocalSubspaces,
          .gatherCommonSubspaces, .MPI_Gather,
          .MPI_Gatherv env.commonSSPartsSizes (gatherDispl env), .sendCommonSubspaces]) ∧
      ((combineThirdLevel env fuel).result = .ok () →
        env.gatherCommonSubspacesSuccess = true ∧ 0 ≤ accumulateInt env.commonSSPartsSizes) ∧
      (ReachesInstruction env fuel → env.gatherCommonSubspacesSuccess = true →
        0 ≤ accumulateInt env.commonSSPartsSizes →
        (combineThirdLevel env fuel).result = .ok ()) := by
  rcases combineThirdLevel_cases env fuel with ⟨polls, hp, hr⟩ | ⟨⟨stop, hs⟩, hnr, hm⟩
  · rw [h] at hr
    rcases exchange_receiveSubspaces env with ⟨hg, hsz, hx⟩ | ⟨hg, hsz, hx⟩ | ⟨hg, hx⟩
    · rw [hx] at hr
      exact ⟨polls ++ (List.range env.numGroups).map Event.combineLocalAndGlobal ++
          [.waitAllFinished, .signalReady, .fetchInstruction "receiveSubspaces"],
        receiveSubspacesCalls env, by rw [hr], not_transfer_of_preamble polls _ _ hp,
        ⟨[], List.append_nil _⟩, fun _ => rfl, fun _ => ⟨hg, hsz⟩, fun _ _ _ => by rw [hr]⟩
    · rw [hx] at hr
      refine ⟨polls ++ (List.range env.numGroups).map Event.combineLocalAndGlobal ++
          [.waitAllFinished, .signalReady, .fetchInstruction "receiveSubspaces"],
        _, by rw [hr], not_transfer_of_preamble polls _ _ hp, ⟨_, rfl⟩, ?_, ?_, ?_⟩
      · intro hok; rw [hr] at hok; cases hok
      · intro hok; rw [hr] at hok; cases hok
      · intro _ _ hsz2; exact absurd hsz (not_lt.mpr hsz2)
    · rw [hx] at hr
      refine ⟨polls ++ (List.range env.numGroups).map Event.combineLocalAndGlobal ++
          [.waitAllFinished, .signalReady, .fetchInstruction "receiveSubspaces"],
        _, by rw [hr], not_transfer_of_preamble polls _ _ hp, ⟨_, rfl⟩, ?_, ?_, ?_⟩
      · intro hok; rw [hr] at hok; cases hok
      · intro hok; rw [hr] at hok; cases hok
      · intro _ hg2; rw [hg] at hg2; cases hg2
  · refine ⟨(combineThirdLevel env fuel).trace, [], (List.append_nil _).symm,
      not_transfer_of_stopped _ hm, ⟨_, List.nil_append _⟩, ?_, ?_, ?_⟩
    · intro hok; rw [hs] at hok; cases hok
    · intro hok; rw [hs] at hok; cases hok
    · intro hreach; exact absurd hreach hnr

theorem combineThirdLevel_receiveSubspaces_order_witness :
    (combineThirdLevel (exampleEnv "receiveSubspaces") 2).result = .ok () ∧
      ∃ pre, (combineThirdLevel (exampleEnv "receiveSubspaces") 2).trace = pre ++
        [Event.receiveCommonSubspaces, .combineRemoteAndLocalSubspaces,
          .gatherCommonSubspaces, .MPI_Gather,
          .MPI_Gatherv (exampleEnv "receiveSubspaces").commonSSPartsSizes
            (gatherDispl (exampleEnv "receiveSubspaces")), .sendCommonSubspaces] ∧
        ∀ e ∈ pre, e.isSubspaceTransfer = false := by
  obtain ⟨pre, ex, ht, hpre, _, hfull, _, hret⟩ :=
    combineThirdLevel_receiveSubspaces_order (exampleEnv "receiveSubspaces") 2 rfl
  have hok := hret ⟨rfl, ⟨1, by decide, by unfold AllWaiting; decide⟩, fun _ _ => rfl⟩ rfl
    (by decide)
  exact ⟨hok, pre, by rw [ht, hfull hok], hpre⟩

/-- C14: a call of `combineThirdLevel` that signals READY to the relay has made, in this
order, its polls, the local-and-global combine signal to every process group (each group
once, in index order), `waitAllFinished`, the READY signal (once), the fetch of the
instruction (once), and after that nothing but subspace transfers.  READY is signalled
whenever the process is the third level reduce manager, some observed sweep finds all groups
waiting and every group accepts the signal. -/
theorem combineThirdLevel_ready_order (env : ManagerEnv) (fuel : Nat) :
    (ReachesInstruction env fuel → Event.signalReady ∈ (combineThirdLevel env fuel).trace) ∧
    (Event.signalReady ∈ (combineThirdLevel env fuel).trace →
      ∃ polls ex, (combineThirdLevel env fuel).trace =
          polls ++ (List.range env.numGroups).map Event.combineLocalAndGlobal ++
            [.waitAllFinished, .signalReady, .fetchInstruction env.instruction] ++ ex ∧
        (∀ e ∈ polls, ∃ i s, e = Event.getStatus i s) ∧
        (∀ e ∈ ex, e.isSubspaceTransfer = true)) := by
  rcases combineThirdLevel_cases env fuel with ⟨polls, hp, hr⟩ | ⟨_, hnr, hm⟩
  · refine ⟨fun _ => ?_, fun _ => ⟨polls, _, by rw [hr], hp,
      exchange_transfer_only env env.instruction⟩⟩
    rw [hr]
    simp
  · refine ⟨fun hreach => absurd hreach hnr, fun hmem => ?_⟩
    rcases hm _ hmem with ⟨i, s, he⟩ | ⟨i, he⟩ <;> cases he

/-- C18: one sweep of `ProcessManager::wait` returns group `i` exactly when `i` is the
lowest index of a group whose polled status is WAIT, and returns nothing exactly when no
group (possibly none at all) is in WAIT.  When the sweep returns a group, `wait` returns it;
when it returns nothing, polling continues with the next sweep.  So `wait` returns only a
group that answered WAIT in the sweep that found it, and never returns while no group
answers WAIT. -/
theorem wait_returns_lowest_waiting (env : ManagerEnv) :
    (∀ t i, (waitSweepLoop env t (List.range env.numGroups)).result = .ok (some i) ↔
      (i < env.numGroups ∧ env.getStatus t i = .PROCESS_GROUP_WAIT ∧
        ∀ j, j < i → env.getStatus t j ≠ .PROCESS_GROUP_WAIT)) ∧
    (∀ t, (waitSweepLoop env t (List.range env.numGroups)).result = .ok none ↔
      ∀ i, i < env.numGroups → env.getStatus t i ≠ .PROCESS_GROUP_WAIT) ∧
    (∀ fuel t i, (waitSweepLoop env t (List.range env.numGroups)).result = .ok (some i) →
      wait env (fuel + 1) t =
        ⟨(waitSweepLoop env t (List.range env.numGroups)).trace, .ok i⟩) ∧
    (∀ fuel t, (waitSweepLoop env t (List.range env.numGroups)).result = .ok none →
      wait env (fuel + 1) t =
        ⟨(waitSweepLoop env t (List.range env.numGroups)).trace ++
          (wait env fuel (t + 1)).trace, (wait env fuel (t + 1)).result⟩) ∧
    (∀ fuel t i, (wait env fuel t).result = .ok i →
      ∃ T, t ≤ T ∧ T < t + fuel ∧
        (waitSweepLoop env T (List.range env.numGroups)).result = .ok (some i)) ∧
    (∀ fuel t, (∀ T i, i < env.numGroups → env.getStatus T i ≠ .PROCESS_GROUP_WAIT) →
      (wait env fuel t).result = .error .polling) := by
  have hsome : ∀ t i, (waitSweepLoop env t (List.range env.numGroups)).result = .ok (some i) ↔
      (i < env.numGroups ∧ env.getStatus t i = .PROCESS_GROUP_WAIT ∧
        ∀ j, j < i → env.getStatus t j ≠ .PROCESS_GROUP_WAIT) := by
    intro t i
    rcases waitSweepLoop_range env t with ⟨k, h1, h2, h3, h4⟩ | ⟨h1, h2⟩
    · rw [h4]
      constructor
      · intro he
        cases he
        exact ⟨h1, h2, h3⟩
      · rintro ⟨hi1, hi2, hi3⟩
        have hki : k = i := by
          rcases Nat.lt_trichotomy k i with hlt | heq | hgt
          · exact absurd h2 (hi3 k hlt)
          · exact heq
          · exact absurd hi2 (h3 i hgt)
        rw [hki]
    · rw [h2]
      constructor
      · intro he; cases he
      · rintro ⟨hi1, hi2, _⟩
        exact absurd hi2 (h1 i hi1)
  have hnone : ∀ t, (waitSweepLoop env t (List.range env.numGroups)).result = .ok none ↔
      ∀ i, i < env.numGroups → env.getStatus t i ≠ .PROCESS_GROUP_WAIT := by
    intro t
    rcases waitSweepLoop_range env t with ⟨k, h1, h2, h3, h4⟩ | ⟨h1, h2⟩
    · rw [h4]
      constructor
      · intro he; cases he
      · intro hall
        exact absurd h2 (hall k h1)
    · rw [h2]
      exact ⟨fun _ => h1, fun _ => rfl⟩
  have hret : ∀ fuel t i,
      (waitSweepLoop env t (List.range env.numGroups)).result = .ok (some i) →
      wait env (fuel + 1) t =
        ⟨(waitSweepLoop env t (List.range env.numGroups)).trace, .ok i⟩ := by
    intro fuel t i h
    rw [wait_succ, Traced.andThen_ok _ _ _ h]
    simp [Traced.pure_eq]
  have hcont : ∀ fuel t,
      (waitSweepLoop env t (List.range env.numGroups)).result = .ok none →
      wait env (fuel + 1) t =
        ⟨(waitSweepLoop env t (List.range env.numGroups)).trace ++
          (wait env fuel (t + 1)).trace, (wait env fuel (t + 1)).result⟩ := by
    intro fuel t h
    rw [wait_succ, Traced.andThen_ok _ _ _ h]
  refine ⟨hsome, hnone, hret, hcont, ?_, ?_⟩
  · intro fuel
    induction fuel with
    | zero =>
      intro t i h
      simp only [wait] at h
      cases h
    | succ fuel ih =>
      intro t i h
      rcases waitSweepLoop_range env t with ⟨k, _, _, _, h4⟩ | ⟨_, h2⟩
      · rw [hret fuel t k h4] at h
        cases h
        exact ⟨t, le_refl _, by omega, h4⟩
      · rw [hcont fuel t h2] at h
        obtain ⟨T, hT1, hT2, hT3⟩ := ih (t + 1) i h
        exact ⟨T, by omega, by omega, hT3⟩
  · intro fuel
    induction fuel with
    | zero => intro t _; rfl
    | succ fuel ih =>
      intro t hall
      rw [hcont fuel t ((hnone t).mpr (hall t))]
      exact ih (t + 1) hall

/-- C19: in `ProcessManager::combine` the count of a polling sweep equals the number of
groups exactly when every group answered WAIT.  The calls of `combine` are polls followed by
signals; a combine signal is sent only after a sweep in which every group answered WAIT; the
signals go to the groups in index order, each group at most once, and a call that returns
has sent the signal to every group exactly once before `waitAllFinished`.  The call returns
when some observed sweep finds all groups waiting and every group accepts the signal.  With
an empty group list no combine signal is sent. -/
theorem combine_signals_after_all_waiting (env : ManagerEnv) (fuel : Nat) :
    (∀ t, (countWaitingLoop env t (List.range env.numGroups) 0).result = .ok env.numGroups ↔
      AllWaiting env t) ∧
    (∃ polls sigs, (combine env fuel).trace = polls ++ sigs ∧
      (∀ e ∈ polls, ∃ i s, e = Event.getStatus i s) ∧
      (∀ i, Event.combine i ∈ sigs →
        ∃ T before, AllWaiting env T ∧ polls = before ++ sweepTrace env T) ∧
      (∃ k, k ≤ env.numGroups ∧ (sigs = (List.range k).map Event.combine ∨
        sigs = (List.range env.numGroups).map Event.combine ++ [.waitAllFinished])) ∧
      ((combine env fuel).result = .ok () →
        sigs = (List.range env.numGroups).map Event.combine ++ [.waitAllFinished])) ∧
    ((∃ T, T < fuel ∧ AllWaiting env T) →
      (∀ i, i < env.numGroups → env.combineSuccess i = true) →
      (combine env fuel).result = .ok ()) ∧
    (env.numGroups = 0 → ∀ i, Event.combine i ∉ (combine env fuel).trace) := by
  have hcount : ∀ t, (countWaitingLoop env t (List.range env.numGroups) 0).result =
      .ok env.numGroups ↔ AllWaiting env t := by
    intro t
    rw [countWaitingLoop_eq, Nat.zero_add]
    constructor
    · intro h
      exact (countP_range_eq_iff env t).mp (Except.ok.inj h)
    · intro h
      rw [(countP_range_eq_iff env t).mpr h]
  have hP := waitAllWaitingLoop_trace env fuel 0 0
  have hS := signalLoop_trace_mem Event.combine env.combineSuccess (List.range env.numGroups)
  refine ⟨hcount, ?_, ?_, ?_⟩
  · rcases waitAllWaitingLoop_result env fuel 0 0 with hpr | hpr
    · have hsweep : ∀ (i : Nat) (sigs : List Event), Event.combine i ∈ sigs →
          (∀ e ∈ sigs, (∃ j, j ∈ List.range env.numGroups ∧ e = Event.combine j) ∨
            e = Event.waitAllFinished) →
          ∃ T before, AllWaiting env T ∧
            (waitAllWaitingLoop env fuel 0 0).trace = before ++ sweepTrace env T := by
        intro i sigs hi hsigs
        rcases waitAllWaitingLoop_ok_sweep env fuel 0 0 hpr with ⟨hn, _⟩ | ⟨_, T, before, h1, h2⟩
        · rcases hsigs _ hi with ⟨j, hj, _⟩ | he
          · rw [← hn] at hj
            simp at hj
          · cases he
        · exact ⟨T, before, h1, h2⟩
      rcases signalLoop_spec Event.combine env.combineSuccess (List.range env.numGroups) with
        ⟨_, hsr⟩ | ⟨k, hk, hsr⟩
      · have hr : combine env fuel =
            ⟨(waitAllWaitingLoop env fuel 0 0).trace ++
              ((List.range env.numGroups).map Event.combine ++ [.waitAllFinished]), .ok ()⟩ := by
          simp only [combine, Traced.bind_eq, Traced.andThen_ok _ _ () hpr, hsr,
            Traced.mk_ok_andThen, call]
        refine ⟨_, _, by rw [hr], hP, ?_, ⟨env.numGroups, le_refl _, Or.inr rfl⟩, fun _ => rfl⟩
        intro i hi
        refine hsweep i _ hi ?_
        intro e he
        rcases List.mem_append.mp he with h | h
        · obtain ⟨j, hj, rfl⟩ := List.mem_map.mp h
          exact Or.inl ⟨j, hj, rfl⟩
        · exact Or.inr (List.mem_singleton.mp h)
      · rw [List.length_range] at hk
        have htake : List.take (k + 1) (List.range env.numGroups) = List.range (k + 1) := by
          rw [List.take_range, Nat.min_eq_left (by omega)]
        rw [htake] at hsr
        have hr : combine env fuel =
            ⟨(waitAllWaitingLoop env fuel 0 0).trace ++ (List.range (k + 1)).map Event.combine,
              .error (.failure .assertion)⟩ := by
          simp only [combine, Traced.bind_eq, Traced.andThen_ok _ _ () hpr, hsr,
            Traced.mk_error_andThen]
        refine ⟨_, _, by rw [hr], hP, ?_, ⟨k + 1, by omega, Or.inl rfl⟩, ?_⟩
        · intro i hi
          refine hsweep i _ hi ?_
          intro e he
          obtain ⟨j, hj, rfl⟩ := List.mem_map.mp he
          exact Or.inl ⟨j, List.mem_range.mpr (by have := List.mem_range.mp hj; omega), rfl⟩
        · intro hok; rw [hr] at hok; cases hok
    · have hr : combine env fuel = ⟨(waitAllWaitingLoop env fuel 0 0).trace, .error .polling⟩ := by
        simp only [combine, Traced.bind_eq, Traced.andThen_error _ _ _ hpr]
      refine ⟨_, [], by rw [hr, List.append_nil], hP, fun i hi => absurd hi (List.not_mem_nil _),
        ⟨0, Nat.zero_le _, Or.inl rfl⟩, ?_⟩
      intro hok; rw [hr] at hok; cases hok
  · intro hpoll hsucc
    have hpr := waitAllWaitingLoop_ok env fuel 0 hpoll
    have hsr := signalLoop_ok Event.combine env.combineSuccess (List.range env.numGroups)
      (fun i hi => hsucc i (List.mem_range.mp hi))
    simp only [combine, Traced.bind_eq, Traced.andThen_ok _ _ () hpr, hsr,
      Traced.mk_ok_andThen, call]
  · intro hn i hmem
    have hmem2 : Event.combine i ∈ (waitAllWaitingLoop env fuel 0 0).trace ++
        ((signalLoop Event.combine env.combineSuccess (List.range env.numGroups)).trace ++
          [Event.waitAllFinished]) := by
      rcases waitAllWaitingLoop_result env fuel 0 0 with hpr | hpr
      · rcases signalLoop_result Event.combine env.combineSuccess
            (List.range env.numGroups) with hsr | hsr
        · have hr : combine env fuel =
              ⟨(waitAllWaitingLoop env fuel 0 0).trace ++
                ((signalLoop Event.combine env.combineSuccess
                  (List.range env.numGroups)).trace ++ [.waitAllFinished]), .ok ()⟩ := by
            simp only [combine, Traced.bind_eq, Traced.andThen_ok _ _ () hpr,
              Traced.andThen_ok _ _ () hsr, call]
          rw [hr] at hmem; exact hmem
        · have hr : combine env fuel =
              ⟨(waitAllWaitingLoop env fuel 0 0).trace ++
                (signalLoop Event.combine env.combineSuccess
                  (List.range env.numGroups)).trace, .error (.failure .assertion)⟩ := by
            simp only [combine, Traced.bind_eq, Traced.andThen_ok _ _ () hpr,
              Traced.andThen_error _ _ _ hsr]
          rw [hr] at hmem
          rcases List.mem_append.mp hmem with h | h
          · exact List.mem_append_left _ h
          · exact List.mem_append_right _ (List.mem_append_left _ h)
      · have hr : combine env fuel =
            ⟨(waitAllWaitingLoop env fuel 0 0).trace, .error .polling⟩ := by
          simp only [combine, Traced.bind_eq, Traced.andThen_error _ _ _ hpr]
        rw [hr] at hmem
        exact List.mem_append_left _ hmem
    rcases List.mem_append.mp hmem2 with h | h
    · obtain ⟨j, s, he⟩ := hP _ h
      cases he
    · rcases List.mem_append.mp h with h | h
      · obtain ⟨j, hj, _⟩ := hS _ h
        rw [hn] at hj
        simp at hj
      · simp at h

theorem combineThirdLevel_ready_order_witness :
    Event.signalReady ∈ (combineThirdLevel (exampleEnv "receiveSubspaces") 2).trace :=
  (combineThirdLevel_ready_order (exampleEnv "receiveSubspaces") 2).1
    ⟨rfl, ⟨1, by decide, by unfold AllWaiting; decide⟩, fun _ _ => rfl⟩

theorem wait_returns_lowest_waiting_witness :
    wait (exampleEnv "") 1 0 =
      ⟨(waitSweepLoop (exampleEnv "") 0 (List.range (exampleEnv "").numGroups)).trace, .ok 0⟩ :=
  (wait_returns_lowest_waiting (exampleEnv "")).2.2.1 0 0 0 rfl

theorem combine_signals_after_all_waiting_witness :
    (combine (exampleEnv "") 2).result = .ok () :=
  (combine_signals_after_all_waiting (exampleEnv "") 2).2.2.1
    ⟨1, by decide, by unfold AllWaiting; decide⟩ (fun _ _ => rfl)

/-- C16: for every number of combination steps `ncombi`, the manager side of the test of the
static task assignment calls only `updateCombiParameters`, `runnext`, `initDsgus`,
`unifySubspaceSizesThirdLevel`, `combineThirdLevel` and `exit`: first
`updateCombiParameters`, last `exit`, and never `runfirst`.  Hence, whatever signals the
operations send, as long as no operation other than `runfirst` sends RUN_FIRST, no worker
receives RUN_FIRST. -/
theorem staticTaskAssignment_never_runfirst (ncombi : Nat)
    (signalsOf : ManagerCommand → List SignalType)
    (hsig : ∀ c, SignalType.RUN_FIRST ∈ signalsOf c → c = .runfirst) :
    ManagerCommand.runfirst ∉ staticTaskAssignmentManager ncombi ∧
    (∀ c ∈ staticTaskAssignmentManager ncombi,
      c = .updateCombiParameters ∨ c = .runnext ∨ c = .initDsgus ∨
        c = .unifySubspaceSizesThirdLevel ∨ c = .combineThirdLevel ∨ c = .exit) ∧
    (∃ steps, staticTaskAssignmentManager ncombi =
      ManagerCommand.updateCombiParameters :: (steps ++ [.exit])) ∧
    SignalType.RUN_FIRST ∉ (staticTaskAssignmentManager ncombi).flatMap signalsOf := by
  have hmem : ∀ c ∈ staticTaskAssignmentManager ncombi,
      c = .updateCombiParameters ∨ c = .runnext ∨ c = .initDsgus ∨
        c = .unifySubspaceSizesThirdLevel ∨ c = .combineThirdLevel ∨ c = .exit := by
    intro c hc
    simp only [staticTaskAssignmentManager, List.mem_append, List.mem_singleton,
      List.mem_flatMap, staticTaskAssignmentStep] at hc
    rcases hc with (rfl | ⟨i, _, hi⟩) | rfl
    · exact Or.inl rfl
    · rcases hi with hi | rfl
      · by_cases h0 : i = 0
        · simp only [h0, if_true, List.mem_cons, List.mem_singleton, List.not_mem_nil,
            or_false] at hi
          rcases hi with rfl | rfl | rfl
          · exact Or.inr (Or.inl rfl)
          · exact Or.inr (Or.inr (Or.inl rfl))
          · exact Or.inr (Or.inr (Or.inr (Or.inl rfl)))
        · simp only [h0, if_false, List.mem_singleton] at hi
          subst hi
          exact Or.inr (Or.inl rfl)
      · exact Or.inr (Or.inr (Or.inr (Or.inr (Or.inl rfl))))
    · exact Or.inr (Or.inr (Or.inr (Or.inr (Or.inr rfl))))
  have hnot : ManagerCommand.runfirst ∉ staticTaskAssignmentManager ncombi := by
    intro h
    rcases hmem _ h with h | h | h | h | h | h <;> cases h
  refine ⟨hnot, hmem, ⟨_, rfl⟩, ?_⟩
  intro h
  obtain ⟨c, hc, hs⟩ := List.mem_flatMap.mp h
  rw [hsig c hs] at hc
  exact hnot hc

theorem staticTaskAssignment_never_runfirst_witness :
    ManagerCommand.runfirst ∉ staticTaskAssignmentManager 3 ∧
    (∀ c ∈ staticTaskAssignmentManager 3,
      c = .updateCombiParameters ∨ c = .runnext ∨ c = .initDsgus ∨
        c = .unifySubspaceSizesThirdLevel ∨ c = .combineThirdLevel ∨ c = .exit) ∧
    (∃ steps, staticTaskAssignmentManager 3 =
      ManagerCommand.updateCombiParameters :: (steps ++ [.exit])) ∧
    SignalType.RUN_FIRST ∉ (staticTaskAssignmentManager 3).flatMap exampleSignalsOf :=
  staticTaskAssignment_never_runfirst 3 exampleSignalsOf
    (by intro c h; cases c <;> first | rfl | exact absurd h (by decide))

/-- C17: for every number `n` of calls, `TaskConstParaboloid::run` leaves the grid data of
the task unchanged; after each call (`n + 1` calls, for every `n`) the task is marked
finished; so the data after any number of runs that follow `init` is the data written by
`init`, the values of `ParaboloidFn` at the local points. -/
theorem TaskConstParaboloid_run_keeps_data (n : Nat) (t : TaskConstParaboloid)
    (localCoords : List (List ℚ)) :
    (TaskConstParaboloid.run^[n] t).data = t.data ∧
    (TaskConstParaboloid.run^[n + 1] t).finished = true ∧
    (TaskConstParaboloid.run^[n] (TaskConstParaboloid.init localCoords t)).data =
      localCoords.map ParaboloidFn := by
  have hdata : ∀ (m : Nat) (u : TaskConstParaboloid),
      (TaskConstParaboloid.run^[m] u).data = u.data := by
    intro m
    induction m with
    | zero => intro u; rfl
    | succ m ih =>
      intro u
      rw [Function.iterate_succ_apply, ih]
      rfl
  refine ⟨hdata n t, ?_, ?_⟩
  · rw [Function.iterate_succ_apply']
    rfl
  · rw [hdata]
    rfl

/-- C20 (the code departs from the claim): every `SelalibTask` operation whose body is
`assert("not yet implemented")` returns normally, also with assertions enabled, because the
asserted condition is a string literal, which is a pointer that is not null. -/
theorem SelalibTask_not_yet_implemented_returns :
    SelalibTask.construct = .ok () ∧ SelalibTask.constructDefault = .ok () ∧
    SelalibTask.run = .ok () ∧ SelalibTask.changeDir = .ok () ∧ SelalibTask.init = .ok () ∧
    SelalibTask.decideToKill = .ok () ∧ SelalibTask.writeLocalDistribution = .ok () ∧
    SelalibTask.setZero = .ok () :=
  ⟨rfl, rfl, rfl, rfl, rfl, rfl, rfl, rfl⟩

/-- C21 (the code departs from the claim): without the flag `ISGENE` the header compiles,
each of the four options is `true` exactly when its flag is defined, `isGENE` and
`reverseOrderingDFGPartitions` are `false` and the element type is `real`.  With `ISGENE`
defined, whatever the other flags, the header does not compile: the `static_assert` of line
76 names `CombiDataType` above its declaration, so there is no configuration with
`isGENE = true` and a complex element type. -/
theorem compileConfig_flags (flags : Flags) :
    compileConfig flags =
      if flags.ISGENE = true then .error (.undeclared "CombiDataType")
      else .ok { USE_NONBLOCKING_MPI_COLLECTIVE := flags.USENONBLOCKINGMPICOLLECTIVE
                 omitReadySignal := flags.OMITREADYSIGNAL
                 uniformDecomposition := flags.UNIFORMDECOMPOSITION
                 ENABLE_FT := flags.ENABLEFT
                 isGENE := false
                 CombiDataType := .real
                 reverseOrderingDFGPartitions := false } := by
  cases h : flags.ISGENE <;> simp [compileConfig, h, lookupType, staticAssert, bind,
    Except.bind, pure, Except.pure]

/-- C22: the assertion of `decomposeScheme` that both halves are non-empty holds if and only
if the input scheme has at least two entries; `decomposeScheme` returns if and only if it
has; and `createThirdLevelScheme` with `numSystems >= 2` fails on its assertion for every
scheme of exactly one level and one coefficient, although that scheme is not empty. -/
theorem createThirdLevelScheme_single_entry_fails (sg : SGridLevels)
    (fullScheme : List LevelVector) (fullSchemeCoeffs : List real) (level : LevelVector)
    (coeff : real) (commonSubspaces : List LevelVector) (boundary : List Bool)
    (systemNumber numSystems : Nat) (hS : 2 ≤ numSystems) :
    ((!(fullScheme.take (fullScheme.length / 2)).isEmpty &&
      !(fullScheme.drop (fullScheme.length / 2)).isEmpty) = true ↔
        2 ≤ fullScheme.length) ∧
    ((∃ r, decomposeScheme fullScheme fullSchemeCoeffs [] [] numSystems = .ok r) ↔
      2 ≤ fullScheme.length) ∧
    createThirdLevelScheme sg [level] [coeff] commonSubspaces boundary systemNumber
      numSystems = .error .assertion := by
  refine ⟨halves_nonempty_iff fullScheme, ?_, ?_⟩
  · constructor
    · rintro ⟨r, hr⟩
      by_contra hlt
      rw [decomposeScheme_fails fullScheme fullSchemeCoeffs [] [] numSystems (by omega)] at hr
      cases hr
    · intro hn
      exact ⟨_, decomposeScheme_eq fullScheme fullSchemeCoeffs [] [] numSystems hn⟩
  · have hS2 : ¬ numSystems < 2 := by omega
    have hdec := decomposeScheme_fails [level] [coeff] [] [] numSystems (by simp)
    simp only [createThirdLevelScheme, List.isEmpty_cons, Bool.not_false, Bool.and_self,
      assertThat_true, hS2, if_false, hdec, bind, Except.bind, pure, Except.pure]

theorem createThirdLevelScheme_single_entry_fails_witness :
    ((!(([[1, 3], [2, 2], [3, 1]] : List LevelVector).take
        (([[1, 3], [2, 2], [3, 1]] : List LevelVector).length / 2)).isEmpty &&
      !(([[1, 3], [2, 2], [3, 1]] : List LevelVector).drop
        (([[1, 3], [2, 2], [3, 1]] : List LevelVector).length / 2)).isEmpty) = true ↔
        2 ≤ ([[1, 3], [2, 2], [3, 1]] : List LevelVector).length) ∧
    ((∃ r, decomposeScheme [[1, 3], [2, 2], [3, 1]] [1, 1, -1] [] [] 2 = .ok r) ↔
      2 ≤ ([[1, 3], [2, 2], [3, 1]] : List LevelVector).length) ∧
    createThirdLevelScheme exampleSGrid [[2, 2]] [1] [] [true, true] 0 2 =
      .error .assertion :=
  createThirdLevelScheme_single_entry_fails exampleSGrid [[1, 3], [2, 2], [3, 1]] [1, 1, -1]
    [2, 2] 1 [] [true, true] 0 2 (by decide)

/-- C23: for every value of `numSystems`, `decomposeScheme` (on a scheme of at least two
levels, called on empty output vectors) produces exactly two level parts and two coefficient
parts; so the lookup `decomposedScheme[systemNumber]` is inside the bounds if and only if
`systemNumber < 2`, and `createThirdLevelScheme` reads outside the bounds for every
`systemNumber >= 2`, as for `numSystems = 3` and `systemNumber = 2`. -/
theorem createThirdLevelScheme_part_lookup (sg : SGridLevels) (levels : List LevelVector)
    (coeffs : List real) (commonSubspaces : List LevelVector) (boundary : List Bool)
    (systemNumber numSystems : Nat) (hn : 2 ≤ levels.length) (hc : coeffs ≠ []) :
    ∃ ds dc, decomposeScheme levels coeffs [] [] numSystems = .ok (ds, dc) ∧
      ds.length = 2 ∧ dc.length = 2 ∧
      ((∃ part, readAt ds systemNumber = .ok part) ↔ systemNumber < 2) ∧
      (2 ≤ numSystems → 2 ≤ systemNumber →
        createThirdLevelScheme sg levels coeffs commonSubspaces boundary systemNumber
          numSystems = .error .outOfRange) ∧
      createThirdLevelScheme sg levels coeffs commonSubspaces boundary 2 3 =
        .error .outOfRange := by
  have hdec := decomposeScheme_eq levels coeffs [] [] numSystems hn
  simp only [List.nil_append] at hdec
  have hl : levels.isEmpty = false := by
    cases levels with
    | nil => simp at hn
    | cons a t => rfl
  have hce : coeffs.isEmpty = false := by
    cases coeffs with
    | nil => exact absurd rfl hc
    | cons a t => rfl
  have hout : ∀ s S : Nat, 2 ≤ S → 2 ≤ s →
      createThirdLevelScheme sg levels coeffs commonSubspaces boundary s S =
        .error .outOfRange := by
    intro s S hS hs
    have hS2 : ¬ S < 2 := by omega
    have hdec2 := decomposeScheme_eq levels coeffs [] [] S hn
    simp only [List.nil_append] at hdec2
    have hread : readAt [levels.take (levels.length / 2), levels.drop (levels.length / 2)] s =
        .error .outOfRange := by
      obtain ⟨k, rfl⟩ : ∃ k, s = k + 2 := ⟨s - 2, by omega⟩
      rfl
    simp only [createThirdLevelScheme, hl, hce, Bool.not_false, Bool.and_self, assertThat_true,
      hS2, if_false, hdec2, hread, bind, Except.bind, pure, Except.pure]
  refine ⟨_, _, hdec, rfl, rfl, ?_, hout systemNumber numSystems, hout 2 3 (by omega)
    (le_refl _)⟩
  constructor
  · rintro ⟨part, hp⟩
    by_contra hlt
    obtain ⟨k, rfl⟩ : ∃ k, systemNumber = k + 2 := ⟨systemNumber - 2, by omega⟩
    cases hp
  · intro hlt
    have h01 : systemNumber = 0 ∨ systemNumber = 1 := by omega
    rcases h01 with rfl | rfl
    · exact ⟨_, rfl⟩
    · exact ⟨_, rfl⟩

theorem createThirdLevelScheme_part_lookup_witness :
    ∃ ds dc, decomposeScheme [[1, 3], [2, 2], [3, 1]] [1, 1, -1] [] [] 3 = .ok (ds, dc) ∧
      ds.length = 2 ∧ dc.length = 2 ∧
      ((∃ part, readAt ds 2 = .ok part) ↔ 2 < 2) ∧
      (2 ≤ 3 → 2 ≤ 2 →
        createThirdLevelScheme exampleSGrid [[1, 3], [2, 2], [3, 1]] [1, 1, -1] []
          [true, true] 2 3 = .error .outOfRange) ∧
      createThirdLevelScheme exampleSGrid [[1, 3], [2, 2], [3, 1]] [1, 1, -1] []
        [true, true] 2 3 = .error .outOfRange :=
  createThirdLevelScheme_part_lookup exampleSGrid [[1, 3], [2, 2], [3, 1]] [1, 1, -1] []
    [true, true] 2 3 (by decide) (by decide)

/-- C27: when the instruction fetched from the relay is neither "sendSubspaces" nor
"receiveSubspaces" (for example "sendSubspaces" with a trailing newline, or the empty
string), `combineThirdLevel` makes no call of the exchange (no gather, no send, no receive,
no integration or reduce), and a call that has fetched the instruction returns normally. -/
theorem combineThirdLevel_other_instruction (env : ManagerEnv) (fuel : Nat)
    (h1 : env.instruction ≠ "sendSubspaces") (h2 : env.instruction ≠ "receiveSubspaces") :
    (∀ e ∈ (combineThirdLevel env fuel).trace, e.isSubspaceTransfer = false) ∧
    (Event.fetchInstruction env.instruction ∈ (combineThirdLevel env fuel).trace →
      (combineThirdLevel env fuel).result = .ok ()) ∧
    (ReachesInstruction env fuel →
      Event.fetchInstruction env.instruction ∈ (combineThirdLevel env fuel).trace ∧
        (combineThirdLevel env fuel).result = .ok ()) := by
  rcases combineThirdLevel_cases env fuel with ⟨polls, hp, hr⟩ | ⟨_, hnr, hm⟩
  · rw [exchange_other env env.instruction h1 h2] at hr
    have hres : (combineThirdLevel env fuel).result = .ok () := by rw [hr]
    have hmem : Event.fetchInstruction env.instruction ∈ (combineThirdLevel env fuel).trace := by
      rw [hr]; simp
    refine ⟨?_, fun _ => hres, fun _ => ⟨hmem, hres⟩⟩
    intro e he
    rw [hr, List.append_nil] at he
    exact not_transfer_of_preamble polls _ _ hp e he
  · refine ⟨not_transfer_of_stopped _ hm, ?_, fun hreach => absurd hreach hnr⟩
    intro hmem
    rcases hm _ hmem with ⟨i, s, he⟩ | ⟨i, he⟩ <;> cases he

theorem combineThirdLevel_other_instruction_witness :
    (∀ e ∈ (combineThirdLevel (exampleEnv "sendSubspaces\n") 2).trace,
      e.isSubspaceTransfer = false) ∧
    (Event.fetchInstruction (exampleEnv "sendSubspaces\n").instruction ∈
        (combineThirdLevel (exampleEnv "sendSubspaces\n") 2).trace →
      (combineThirdLevel (exampleEnv "sendSubspaces\n") 2).result = .ok ()) ∧
    (ReachesInstruction (exampleEnv "sendSubspaces\n") 2 →
      Event.fetchInstruction (exampleEnv "sendSubspaces\n").instruction ∈
          (combineThirdLevel (exampleEnv "sendSubspaces\n") 2).trace ∧
        (combineThirdLevel (exampleEnv "sendSubspaces\n") 2).result = .ok ()) :=
  combineThirdLevel_other_instruction (exampleEnv "sendSubspaces\n") 2 (by decide) (by decide)

/-- C28: `ProcessManager::getTask(id)` returns the first task in list order whose ID equals
`id`, and returns null if and only if no task of the list has that ID; after `addTask(t)`
every lookup that found a task still finds the same task, every stored task is still found
under its ID, and `t` is found under its ID whenever no earlier task shares it. -/
theorem getTask_first_match {Task : Type} (getID : Task → Int) (tasks_ : List Task)
    (t : Task) :
    (∀ taskID r, getTask getID tasks_ taskID = some r ↔
      ∃ pre post, tasks_ = pre ++ r :: post ∧ getID r = taskID ∧
        ∀ u ∈ pre, getID u ≠ taskID) ∧
    (∀ taskID, getTask getID tasks_ taskID = none ↔ ∀ u ∈ tasks_, getID u ≠ taskID) ∧
    (∀ taskID r, getTask getID tasks_ taskID = some r →
      getTask getID (addTask tasks_ t) taskID = some r) ∧
    (∀ u ∈ tasks_, ∃ r, getTask getID tasks_ (getID u) = some r ∧
      getTask getID (addTask tasks_ t) (getID u) = some r ∧ getID r = getID u) ∧
    ((∀ u ∈ tasks_, getID u ≠ getID t) →
      getTask getID (addTask tasks_ t) (getID t) = some t) := by
  have hkeep : ∀ taskID r, getTask getID tasks_ taskID = some r →
      getTask getID (addTask tasks_ t) taskID = some r := by
    intro taskID r h
    rw [addTask, getTask_append, h]
  refine ⟨fun taskID r => getTask_eq_some_iff getID tasks_ taskID r,
    fun taskID => getTask_eq_none_iff getID tasks_ taskID, hkeep, ?_, ?_⟩
  · intro u hu
    cases hfound : getTask getID tasks_ (getID u) with
    | none => exact absurd rfl ((getTask_eq_none_iff getID tasks_ (getID u)).mp hfound u hu)
    | some r =>
      obtain ⟨_, _, _, hr, _⟩ := (getTask_eq_some_iff getID tasks_ (getID u) r).mp hfound
      exact ⟨r, rfl, hkeep _ r hfound, hr⟩
  · intro hnew
    rw [addTask, getTask_append, (getTask_eq_none_iff getID tasks_ (getID t)).mpr hnew]
    simp [getTask]

/-- C24: for a decomposed scheme whose first part has a first level and whose levels all
have dimension `dim`, and a sparse grid that enumerates subspaces of dimension `dim`, the
list that `computeCommonSubspaces` returns is downward closed within the enumerated
candidates: if `σ` is returned and `τ` is an enumerated subspace with `τ[d] <= σ[d]` in every
dimension `d < dim`, then `τ` is returned as well. -/
theorem computeCommonSubspaces_downward_closed (sg : SGridLevels)
    (ds : List (List LevelVector)) (boundary : List Bool) (dim : Nat)
    (h0 : ∃ part0 level0, ds[0]? = some part0 ∧ part0[0]? = some level0)
    (hdim : ∀ part ∈ ds, ∀ l ∈ part, l.length = dim)
    (hsg : ∀ M, computeMaxLevel ds = .ok (dim, M) → ∀ σ ∈ sg dim M M boundary,
      σ.length = dim) :
    ∃ maxLevel common, computeMaxLevel ds = .ok (dim, maxLevel) ∧
      computeCommonSubspaces sg ds boundary = .ok common ∧
      ∀ σ ∈ common, ∀ τ ∈ sg dim maxLevel maxLevel boundary,
        (∀ d, d < dim → ∃ a b, τ[d]? = some a ∧ σ[d]? = some b ∧ a ≤ b) → τ ∈ common := by
  obtain ⟨M, del, hM, hrun, hdel⟩ := computeCommonSubspaces_eq sg ds boundary dim h0 hdim hsg
  refine ⟨M, _, hM, hrun, ?_⟩
  intro σ hσ τ hτ hle
  have hmem : ∀ ss, ss ∈ (sg dim M M boundary).filter (fun ss => !del.contains ss) ↔
      ss ∈ sg dim M M boundary ∧ ss ∉ del := by
    intro ss
    simp [List.mem_filter]
  rw [hmem] at hσ ⊢
  refine ⟨hτ, fun hτdel => hσ.2 ((hdel σ).mpr ⟨hσ.1, ?_⟩)⟩
  obtain ⟨part, hp, hall⟩ := ((hdel τ).mp hτdel).2
  refine ⟨part, hp, fun l hl => ?_⟩
  obtain ⟨d, hd, hlt⟩ := hall l hl
  obtain ⟨a, b, ha, hb, hab⟩ := hle d hd
  refine ⟨d, hd, ?_⟩
  simp only [List.getD_eq_getElem?_getD, ha, hb, Option.getD_some] at hlt ⊢
  omega

theorem computeCommonSubspaces_downward_closed_witness :
    ∃ maxLevel common, computeMaxLevel [[[1, 3], [2, 2]], [[3, 1], [2, 2]]] =
        .ok (2, maxLevel) ∧
      computeCommonSubspaces exampleSGrid [[[1, 3], [2, 2]], [[3, 1], [2, 2]]] [true, true] =
        .ok common ∧
      ∀ σ ∈ common, ∀ τ ∈ exampleSGrid 2 maxLevel maxLevel [true, true],
        (∀ d, d < 2 → ∃ a b, τ[d]? = some a ∧ σ[d]? = some b ∧ a ≤ b) → τ ∈ common :=
  computeCommonSubspaces_downward_closed exampleSGrid [[[1, 3], [2, 2]], [[3, 1], [2, 2]]]
    [true, true] 2 ⟨[[1, 3], [2, 2]], [1, 3], rfl, rfl⟩ (by decide)
    (fun M _ => exampleSGrid_length 2 M M [true, true])

/-- C25: for two non-empty parts `A` and `B` whose levels all have dimension `dim`, every
boundary and a sparse grid that enumerates subspaces of dimension `dim`,
`computeCommonSubspaces` returns for `(A, B)` and for `(B, A)` the same list: the same
elements in the same order. -/
theorem computeCommonSubspaces_parts_order (sg : SGridLevels) (A B : List LevelVector)
    (boundary : List Bool) (dim : Nat) (hA : A ≠ []) (hB : B ≠ [])
    (hdimA : ∀ l ∈ A, l.length = dim) (hdimB : ∀ l ∈ B, l.length = dim)
    (hsg : ∀ M, ∀ σ ∈ sg dim M M boundary, σ.length = dim) :
    ∃ common, computeCommonSubspaces sg [A, B] boundary = .ok common ∧
      computeCommonSubspaces sg [B, A] boundary = .ok common := by
  obtain ⟨M, hM1, hM2⟩ := computeMaxLevel_swap A B dim hA hB hdimA hdimB
  have h01 : ∃ part0 level0, [A, B][0]? = some part0 ∧ part0[0]? = some level0 := by
    obtain ⟨x, A2, rfl⟩ := List.exists_cons_of_ne_nil hA
    exact ⟨x :: A2, x, by simp, by simp⟩
  have h02 : ∃ part0 level0, [B, A][0]? = some part0 ∧ part0[0]? = some level0 := by
    obtain ⟨x, B2, rfl⟩ := List.exists_cons_of_ne_nil hB
    exact ⟨x :: B2, x, by simp, by simp⟩
  have hd1 : ∀ part ∈ [A, B], ∀ l ∈ part, l.length = dim := by
    intro part hp l hl
    simp only [List.mem_cons, List.mem_singleton, List.not_mem_nil, or_false] at hp
    rcases hp with rfl | rfl
    · exact hdimA l hl
    · exact hdimB l hl
  have hd2 : ∀ part ∈ [B, A], ∀ l ∈ part, l.length = dim := by
    intro part hp l hl
    simp only [List.mem_cons, List.mem_singleton, List.not_mem_nil, or_false] at hp
    rcases hp with rfl | rfl
    · exact hdimB l hl
    · exact hdimA l hl
  obtain ⟨M1, del1, hM1', hrun1, hdel1⟩ :=
    computeCommonSubspaces_eq sg [A, B] boundary dim h01 hd1 (fun M _ => hsg M)
  obtain ⟨M2, del2, hM2', hrun2, hdel2⟩ :=
    computeCommonSubspaces_eq sg [B, A] boundary dim h02 hd2 (fun M _ => hsg M)
  have e1 : M1 = M := by
    rw [hM1] at hM1'
    cases hM1'
    rfl
  have e2 : M2 = M := by
    rw [hM2] at hM2'
    cases hM2'
    rfl
  subst e1
  subst e2
  refine ⟨_, hrun1, ?_⟩
  rw [hrun2]
  congr 1
  apply List.filter_congr
  intro ss _
  have hiff : ss ∈ del2 ↔ ss ∈ del1 := by
    rw [hdel1 ss, hdel2 ss]
    simp only [List.mem_cons, List.mem_singleton, List.not_mem_nil, or_false, exists_eq_or_imp,
      exists_eq_left]
    tauto
  by_cases h : ss ∈ del1
  · simp [h, hiff.mpr h]
  · have h2 : ss ∉ del2 := fun h2 => h (hiff.mp h2)
    simp [h, h2]

theorem computeCommonSubspaces_parts_order_witness :
    ∃ common, computeCommonSubspaces exampleSGrid [[[1, 3], [2, 2]], [[3, 1]]]
        [true, true] = .ok common ∧
      computeCommonSubspaces exampleSGrid [[[3, 1]], [[1, 3], [2, 2]]] [true, true] =
        .ok common :=
  computeCommonSubspaces_parts_order exampleSGrid [[1, 3], [2, 2]] [[3, 1]] [true, true] 2
    (by decide) (by decide) (by decide) (by decide)
    (fun M => exampleSGrid_length 2 M M [true, true])

/-- C26: in `gatherCommonSubSpacesFromThirdLevelReducePG`, for non-negative part sizes whose
sum fits a 32 bit signed `int` (and a third level reduce group that accepts the gather
signal), the displacements handed to `MPI_Gatherv` are the exclusive prefix sums of the
sizes (`displ[0] = 0`, `displ[i] = displ[i-1] + sizes[i-1]`) and the receive buffer has the
sum of the sizes as its length; so the slices `[displ[i], displ[i] + sizes[i])` lie inside
the buffer, do not overlap, and every position of the buffer is in one of them. -/
theorem gather_displacements (env : ManagerEnv)
    (hg : env.gatherCommonSubspacesSuccess = true)
    (hnn : ∀ s ∈ env.commonSSPartsSizes, 0 ≤ s)
    (hfit : env.commonSSPartsSizes.sum < 2 ^ 31) :
    ∃ (displ : List Int) (buffer : Nat),
      gatherCommonSubSpacesFromThirdLevelReducePG env =
        ⟨[.gatherCommonSubspaces, .MPI_Gather, .MPI_Gatherv env.commonSSPartsSizes displ],
          .ok buffer⟩ ∧
      displ = (List.range env.commonSSPartsSizes.length).map
        (fun i => (env.commonSSPartsSizes.take i).sum) ∧
      (0 < env.commonSSPartsSizes.length → displ[0]? = some 0) ∧
      (∀ i, 0 < i → i < env.commonSSPartsSizes.length →
        displ.getD i 0 = displ.getD (i - 1) 0 + env.commonSSPartsSizes.getD (i - 1) 0) ∧
      (buffer : Int) = env.commonSSPartsSizes.sum ∧
      (∀ i, i < env.commonSSPartsSizes.length →
        0 ≤ displ.getD i 0 ∧ displ.getD i 0 + env.commonSSPartsSizes.getD i 0 ≤ buffer) ∧
      (∀ i j, i < j → j < env.commonSSPartsSizes.length →
        displ.getD i 0 + env.commonSSPartsSizes.getD i 0 ≤ displ.getD j 0) ∧
      (∀ x : Int, 0 ≤ x → x < buffer → ∃ i, i < env.commonSSPartsSizes.length ∧
        displ.getD i 0 ≤ x ∧ x < displ.getD i 0 + env.commonSSPartsSizes.getD i 0) := by
  have hD : ∀ i, i < env.commonSSPartsSizes.length →
      ((List.range env.commonSSPartsSizes.length).map
        (fun i => (env.commonSSPartsSizes.take i).sum)).getD i 0 =
          (env.commonSSPartsSizes.take i).sum := by
    intro i hi
    simp [List.getD_eq_getElem?_getD, List.getElem?_map, List.getElem?_range, hi]
  have hsum0 : 0 ≤ env.commonSSPartsSizes.sum := List.sum_nonneg hnn
  have hbuf : (((accumulateInt env.commonSSPartsSizes % 2 ^ 64).toNat : Nat) : Int) =
      env.commonSSPartsSizes.sum := by
    rw [accumulateInt_eq _ hnn hfit, Int.emod_eq_of_lt hsum0 (by omega),
      Int.toNat_of_nonneg hsum0]
  have hacc : 0 ≤ accumulateInt env.commonSSPartsSizes := by
    rw [accumulateInt_eq _ hnn hfit]; exact hsum0
  refine ⟨_, _, gather_ok env hg hacc, gatherDispl_eq env hnn hfit, ?_, ?_, hbuf, ?_, ?_, ?_⟩
  · intro hpos
    rw [gatherDispl_eq env hnn hfit]
    simp [List.getElem?_map, List.getElem?_range, hpos]
  · intro i hi0 hi
    rw [gatherDispl_eq env hnn hfit, hD i hi, hD (i - 1) (by omega),
      ← sum_take_succ_getD _ (i - 1) (by omega)]
    have e : i - 1 + 1 = i := by omega
    rw [e]
  · intro i hi
    rw [gatherDispl_eq env hnn hfit, hD i hi, hbuf, ← sum_take_succ_getD _ i hi]
    exact ⟨sum_take_nonneg _ hnn i, sum_take_le_sum _ hnn (i + 1)⟩
  · intro i j hij hj
    rw [gatherDispl_eq env hnn hfit, hD i (by omega), hD j hj,
      ← sum_take_succ_getD _ i (by omega)]
    exact sum_take_mono _ hnn (i + 1) j hij
  · intro x hx0 hx
    rw [hbuf] at hx
    obtain ⟨i, hi, h1, h2⟩ := sum_take_cover env.commonSSPartsSizes x hx0
      env.commonSSPartsSizes.length (le_refl _) (by rwa [List.take_length])
    refine ⟨i, hi, ?_, ?_⟩
    · rw [gatherDispl_eq env hnn hfit, hD i hi]; exact h1
    · rw [gatherDispl_eq env hnn hfit, hD i hi]; exact h2

theorem gather_displacements_witness :
    ∃ (displ : List Int) (buffer : Nat),
      gatherCommonSubSpacesFromThirdLevelReducePG (exampleEnv "sendSubspaces") =
        ⟨[.gatherCommonSubspaces, .MPI_Gather,
          .MPI_Gatherv (exampleEnv "sendSubspaces").commonSSPartsSizes displ], .ok buffer⟩ ∧
      displ = (List.range (exampleEnv "sendSubspaces").commonSSPartsSizes.length).map
        (fun i => ((exampleEnv "sendSubspaces").commonSSPartsSizes.take i).sum) ∧
      (0 < (exampleEnv "sendSubspaces").commonSSPartsSizes.length → displ[0]? = some 0) ∧
      (∀ i, 0 < i → i < (exampleEnv "sendSubspaces").commonSSPartsSizes.length →
        displ.getD i 0 = displ.getD (i - 1) 0 +
          (exampleEnv "sendSubspaces").commonSSPartsSizes.getD (i - 1) 0) ∧
      (buffer : Int) = (exampleEnv "sendSubspaces").commonSSPartsSizes.sum ∧
      (∀ i, i < (exampleEnv "sendSubspaces").commonSSPartsSizes.length →
        0 ≤ displ.getD i 0 ∧
          displ.getD i 0 + (exampleEnv "sendSubspaces").commonSSPartsSizes.getD i 0 ≤ buffer) ∧
      (∀ i j, i < j → j < (exampleEnv "sendSubspaces").commonSSPartsSizes.length →
        displ.getD i 0 + (exampleEnv "sendSubspaces").commonSSPartsSizes.getD i 0 ≤
          displ.getD j 0) ∧
      (∀ x : Int, 0 ≤ x → x < buffer →
        ∃ i, i < (exampleEnv "sendSubspaces").commonSSPartsSizes.length ∧
          displ.getD i 0 ≤ x ∧
          x < displ.getD i 0 + (exampleEnv "sendSubspaces").commonSSPartsSizes.getD i 0) :=
  gather_displacements (exampleEnv "sendSubspaces") rfl (by decide) (by decide)

end combigrid
